import Mathlib

/-!
# AMD MP2 I2C adapter: command and event words (`i2c-amd-mp2.h`)

The header declares the two 32-bit wire words exchanged with the MP2
co-processor as unions of a `u32 ul` member with a bit-field struct
(`union i2c_cmd_base`, member `s`; `union i2c_event`, member `r`), the enums
carried in them, the register offsets of the mailbox and the per-bus and
per-device contexts.

A union value is embedded as its `ul` member, a natural number below `2 ^ 32`.
A bit-field member is embedded by the two accesses C performs on it, at the bit
positions the header's kernel-doc comments give (bit 0 is the least significant
bit, the little-endian allocation used by the x86 kernel ABI):

* a read is `(ul >> off) & mask`,
* a store is `ul = (ul & ~(mask << off)) | ((v & mask) << off)`.

The bit-fields of enum type are unsigned, no enumerator being negative, so a
read returns the stored bits as a number; a value that no enumerator has is
still a value of the field.

The bodies of the functions the header declares (`amd_mp2_c2p_mutex_lock`,
`amd_mp2_read`, ...) are not part of it. Where a property needs one, it is
modelled from the specification of the driver, in a definition whose comment
says so.
-/

namespace AmdMp2

/-! ## Bit-field access on a `u32` -/

/-- All ones of a `u32`, the operand of the 32-bit complement `~x = 0xFFFFFFFF ^ x`. -/
def U32_MAX : Nat := 0xFFFFFFFF

/-- Mask of a bit-field of `width` bits, before it is shifted to its offset. -/
def bf_mask (width : Nat) : Nat := 2 ^ width - 1

/-- Read of a bit-field of `width` bits at bit `off`: `(ul >> off) & mask`. -/
def bf_get (ul off width : Nat) : Nat := (ul >>> off) &&& bf_mask width

/-- Store of `v` into a bit-field of `width` bits at bit `off` of a `u32`:
`(ul & ~(mask << off)) | ((v & mask) << off)`; the value is truncated to the
field's width, as C does for an unsigned bit-field. -/
def bf_set (ul off width v : Nat) : Nat :=
  (ul &&& (U32_MAX ^^^ (bf_mask width <<< off))) ||| ((v &&& bf_mask width) <<< off)

/-! ## Mailbox registers (anonymous enum, lines 19-39) -/

def AMD_C2P_MSG0 : Nat := 0x10500
def AMD_C2P_MSG1 : Nat := 0x10504
def AMD_C2P_MSG2 : Nat := 0x10508
def AMD_C2P_MSG3 : Nat := 0x1050c
def AMD_C2P_MSG4 : Nat := 0x10510
def AMD_C2P_MSG5 : Nat := 0x10514
def AMD_C2P_MSG6 : Nat := 0x10518
def AMD_C2P_MSG7 : Nat := 0x1051c
def AMD_C2P_MSG8 : Nat := 0x10520
def AMD_C2P_MSG9 : Nat := 0x10524
def AMD_P2C_MSG0 : Nat := 0x10680
def AMD_P2C_MSG1 : Nat := 0x10684
def AMD_P2C_MSG2 : Nat := 0x10688
def AMD_P2C_MSG3 : Nat := 0x1068C
def AMD_P2C_MSG_INTEN : Nat := 0x10690
def AMD_P2C_MSG_INTSTS : Nat := 0x10694

/-- The data registers of the mailbox, `AMD_C2P_MSG2` (Data 0) to `AMD_C2P_MSG9`
(Data 7), as commented in the register enum. -/
def c2p_data_regs : List Nat :=
  [AMD_C2P_MSG2, AMD_C2P_MSG3, AMD_C2P_MSG4, AMD_C2P_MSG5,
   AMD_C2P_MSG6, AMD_C2P_MSG7, AMD_C2P_MSG8, AMD_C2P_MSG9]

/-! ## Enumerations -/

/-- The macro `i2c_none`, `(-1)`. -/
def i2c_none : Int := -1

/-- The enum `i2c_cmd` (lines 44-52). -/
inductive i2c_cmd where
  | i2c_read
  | i2c_write
  | i2c_enable
  | i2c_disable
  | number_of_sensor_discovered
  | is_mp2_active
  | invalid_cmd
  deriving DecidableEq, Repr

/-- Value of an `i2c_cmd` enumerator: counted from `i2c_read = 0`, with
`invalid_cmd = 0xF`. -/
def i2c_cmd.toNat : i2c_cmd → Nat
  | .i2c_read => 0
  | .i2c_write => 1
  | .i2c_enable => 2
  | .i2c_disable => 3
  | .number_of_sensor_discovered => 4
  | .is_mp2_active => 5
  | .invalid_cmd => 0xF

/-- The enum `speed_enum` (lines 54-60). -/
inductive speed_enum where
  | speed100k
  | speed400k
  | speed1000k
  | speed1400k
  | speed3400k
  deriving DecidableEq, Repr

/-- Value of a `speed_enum` enumerator. -/
def speed_enum.toNat : speed_enum → Nat
  | .speed100k => 0
  | .speed400k => 1
  | .speed1000k => 2
  | .speed1400k => 3
  | .speed3400k => 4

/-- The enum `mem_type` (lines 62-65). -/
inductive mem_type where
  | use_dram
  | use_c2pmsg
  deriving DecidableEq, Repr

/-- Value of a `mem_type` enumerator. -/
def mem_type.toNat : mem_type → Nat
  | .use_dram => 0
  | .use_c2pmsg => 1

/-- The enum `response_type` (lines 89-93). -/
inductive response_type where
  | invalid_response
  | command_success
  | command_failed
  deriving DecidableEq, Repr

/-- Value of a `response_type` enumerator. -/
def response_type.toNat : response_type → Nat
  | .invalid_response => 0
  | .command_success => 1
  | .command_failed => 2

/-- The enumerator of `response_type` with a given value, when there is one. -/
def response_type.ofNat? : Nat → Option response_type
  | 0 => some .invalid_response
  | 1 => some .command_success
  | 2 => some .command_failed
  | _ => none

/-- The enum `status_type` (lines 96-113); the last enumerator has no explicit
value and so takes the value after `numberof_sensors_discovered_resp = 14`. -/
inductive status_type where
  | i2c_readcomplete_event
  | i2c_readfail_event
  | i2c_writecomplete_event
  | i2c_writefail_event
  | i2c_busenable_complete
  | i2c_busenable_failed
  | i2c_busdisable_complete
  | i2c_busdisable_failed
  | invalid_data_length
  | invalid_slave_address
  | invalid_i2cbus_id
  | invalid_dram_addr
  | invalid_command
  | mp2_active
  | numberof_sensors_discovered_resp
  | i2c_bus_notinitialized
  deriving DecidableEq, Repr

/-- Value of a `status_type` enumerator. -/
def status_type.toNat : status_type → Nat
  | .i2c_readcomplete_event => 0
  | .i2c_readfail_event => 1
  | .i2c_writecomplete_event => 2
  | .i2c_writefail_event => 3
  | .i2c_busenable_complete => 4
  | .i2c_busenable_failed => 5
  | .i2c_busdisable_complete => 6
  | .i2c_busdisable_failed => 7
  | .invalid_data_length => 8
  | .invalid_slave_address => 9
  | .invalid_i2cbus_id => 10
  | .invalid_dram_addr => 11
  | .invalid_command => 12
  | .mp2_active => 13
  | .numberof_sensors_discovered_resp => 14
  | .i2c_bus_notinitialized => 15

/-- The enumerator of `status_type` with a given value, when there is one. -/
def status_type.ofNat? : Nat → Option status_type
  | 0 => some .i2c_readcomplete_event
  | 1 => some .i2c_readfail_event
  | 2 => some .i2c_writecomplete_event
  | 3 => some .i2c_writefail_event
  | 4 => some .i2c_busenable_complete
  | 5 => some .i2c_busenable_failed
  | 6 => some .i2c_busdisable_complete
  | 7 => some .i2c_busdisable_failed
  | 8 => some .invalid_data_length
  | 9 => some .invalid_slave_address
  | 10 => some .invalid_i2cbus_id
  | 11 => some .invalid_dram_addr
  | 12 => some .invalid_command
  | 13 => some .mp2_active
  | 14 => some .numberof_sensors_discovered_resp
  | 15 => some .i2c_bus_notinitialized
  | _ => none

/-! ## `union i2c_cmd_base` (lines 76-86) -/

namespace i2c_cmd_base

/-- The bit-field struct `s` of the union, as the six values read from it. -/
structure s where
  i2c_cmd : Nat
  bus_id : Nat
  slave_addr : Nat
  length : Nat
  i2c_speed : Nat
  mem_type : Nat
  deriving DecidableEq, Repr

/-- Read of `s.i2c_cmd`, 4 bits at bit 0. -/
def i2c_cmd (ul : Nat) : Nat := bf_get ul 0 4
/-- Read of `s.bus_id`, 4 bits at bit 4. -/
def bus_id (ul : Nat) : Nat := bf_get ul 4 4
/-- Read of `s.slave_addr`, 8 bits at bit 8. -/
def slave_addr (ul : Nat) : Nat := bf_get ul 8 8
/-- Read of `s.length`, 12 bits at bit 16. -/
def length (ul : Nat) : Nat := bf_get ul 16 12
/-- Read of `s.i2c_speed`, 3 bits at bit 28. -/
def i2c_speed (ul : Nat) : Nat := bf_get ul 28 3
/-- Read of `s.mem_type`, 1 bit at bit 31. -/
def mem_type (ul : Nat) : Nat := bf_get ul 31 1

/-- Store `s.i2c_cmd = v`. -/
def set_i2c_cmd (ul v : Nat) : Nat := bf_set ul 0 4 v
/-- Store `s.bus_id = v`. -/
def set_bus_id (ul v : Nat) : Nat := bf_set ul 4 4 v
/-- Store `s.slave_addr = v`. -/
def set_slave_addr (ul v : Nat) : Nat := bf_set ul 8 8 v
/-- Store `s.length = v`. -/
def set_length (ul v : Nat) : Nat := bf_set ul 16 12 v
/-- Store `s.i2c_speed = v`. -/
def set_i2c_speed (ul v : Nat) : Nat := bf_set ul 28 3 v
/-- Store `s.mem_type = v`. -/
def set_mem_type (ul v : Nat) : Nat := bf_set ul 31 1 v

/-- The six members of `s` read from the word `ul`. -/
def decode (ul : Nat) : s :=
  { i2c_cmd := i2c_cmd ul, bus_id := bus_id ul, slave_addr := slave_addr ul,
    length := length ul, i2c_speed := i2c_speed ul, mem_type := mem_type ul }

/-- The command word of a request: `ul = 0`, the six members of `s` stored one
after the other, and `ul` read back. -/
def encode (op bus slave len speed loc : Nat) : Nat :=
  set_mem_type (set_i2c_speed (set_length (set_slave_addr
    (set_bus_id (set_i2c_cmd 0 op) bus) slave) len) speed) loc

/-- The word holding the six members of a struct `s`. -/
def pack (f : s) : Nat :=
  encode f.i2c_cmd f.bus_id f.slave_addr f.length f.i2c_speed f.mem_type

/-- Every member of `f` fits the width of its bit-field. -/
def in_range (f : s) : Prop :=
  f.i2c_cmd < 16 ∧ f.bus_id < 16 ∧ f.slave_addr < 256 ∧ f.length < 4096 ∧
    f.i2c_speed < 8 ∧ f.mem_type < 2

instance (f : s) : Decidable (in_range f) := by
  unfold in_range; infer_instance

end i2c_cmd_base

/-! ## `union i2c_event` (lines 124-134) -/

namespace i2c_event

/-- The bit-field struct `r` of the union, as the six values read from it. -/
structure r where
  response : Nat
  status : Nat
  mem_type : Nat
  bus_id : Nat
  length : Nat
  slave_addr : Nat
  deriving DecidableEq, Repr

/-- Read of `r.response`, 2 bits at bit 0. -/
def response (ul : Nat) : Nat := bf_get ul 0 2
/-- Read of `r.status`, 5 bits at bit 2. -/
def status (ul : Nat) : Nat := bf_get ul 2 5
/-- Read of `r.mem_type`, 1 bit at bit 7. -/
def mem_type (ul : Nat) : Nat := bf_get ul 7 1
/-- Read of `r.bus_id`, 4 bits at bit 8. -/
def bus_id (ul : Nat) : Nat := bf_get ul 8 4
/-- Read of `r.length`, 12 bits at bit 12. -/
def length (ul : Nat) : Nat := bf_get ul 12 12
/-- Read of `r.slave_addr`, 8 bits at bit 24. -/
def slave_addr (ul : Nat) : Nat := bf_get ul 24 8

/-- Store `r.response = v`. -/
def set_response (ul v : Nat) : Nat := bf_set ul 0 2 v
/-- Store `r.status = v`. -/
def set_status (ul v : Nat) : Nat := bf_set ul 2 5 v
/-- Store `r.mem_type = v`. -/
def set_mem_type (ul v : Nat) : Nat := bf_set ul 7 1 v
/-- Store `r.bus_id = v`. -/
def set_bus_id (ul v : Nat) : Nat := bf_set ul 8 4 v
/-- Store `r.length = v`. -/
def set_length (ul v : Nat) : Nat := bf_set ul 12 12 v
/-- Store `r.slave_addr = v`. -/
def set_slave_addr (ul v : Nat) : Nat := bf_set ul 24 8 v

/-- The six members of `r` read from the event word `ul`. -/
def decode (ul : Nat) : r :=
  { response := response ul, status := status ul, mem_type := mem_type ul,
    bus_id := bus_id ul, length := length ul, slave_addr := slave_addr ul }

/-- The word holding the six members of a struct `r`: `ul = 0`, the members
stored one after the other, and `ul` read back. -/
def pack (f : r) : Nat :=
  set_slave_addr (set_length (set_bus_id (set_mem_type
    (set_status (set_response 0 f.response) f.status) f.mem_type) f.bus_id) f.length)
    f.slave_addr

/-- Every member of `f` fits the width of its bit-field. -/
def in_range (f : r) : Prop :=
  f.response < 4 ∧ f.status < 32 ∧ f.mem_type < 2 ∧ f.bus_id < 16 ∧ f.length < 4096 ∧
    f.slave_addr < 256

instance (f : r) : Decidable (in_range f) := by
  unfold in_range; infer_instance

end i2c_event

/-! ## Request and context structures (lines 144-197) -/

/-- Modelled from the spec: the transfer direction of a DMA mapping, "to-device /
from-device"; the kernel's `enum dma_data_direction` is named by
`struct i2c_rw_config` and declared outside the header. -/
inductive dma_data_direction where
  | to_device
  | from_device
  deriving DecidableEq, Repr

/-- The struct `i2c_rw_config`. `buf` is the buffer of 32-bit words; `dma_addr`
and `dma_direction` are documented as holding a value "if length > 32", hence
optional here: `none` is a field that was not set (no DMA mapping). -/
structure i2c_rw_config where
  slave_addr : Nat
  length : Nat
  buf : List Nat
  dma_addr : Option Nat
  dma_direction : Option dma_data_direction
  deriving DecidableEq, Repr

/-- Modelled from the spec: the states of the per-bus transfer state machine of
the Transfer Manager; the header has no field for them. -/
inductive bus_state where
  | Idle
  | AwaitingMailbox
  | CommandSent
  | Completed
  | TimedOut
  deriving DecidableEq, Repr

/-- The struct `amd_i2c_common`, the per-bus context: `eventval` is the `ul`
member of its `union i2c_event`, `work` tells whether the delayed work is armed.
The back pointer `mp2_dev` is the device the context is stored in. The member
`state` is modelled from the spec (see `bus_state`). -/
structure amd_i2c_common where
  eventval : Nat
  rw_cfg : i2c_rw_config
  work : Bool
  reqcmd : i2c_cmd
  bus_id : Nat
  i2c_speed : speed_enum
  state : bus_state
  deriving DecidableEq, Repr

/-- The struct `amd_mp2_dev`, the per-device context: the two slots of
`plat_common[2]`, the register window `mmio` as the list of the register writes
made so far (latest first), the mutex `c2p_lock` as its locked flag, and
`c2p_lock_busid`. -/
structure amd_mp2_dev where
  plat_common : Option amd_i2c_common × Option amd_i2c_common
  mmio : List (Nat × Nat)
  c2p_lock : Bool
  c2p_lock_busid : Nat
  deriving DecidableEq, Repr

/-- The slot `plat_common[b]` of a device; there are two slots. -/
def plat_common_at (dev : amd_mp2_dev) (b : Nat) : Option amd_i2c_common :=
  match b with
  | 0 => dev.plat_common.1
  | 1 => dev.plat_common.2
  | _ => none

/-- The device after `*plat_common[b] = c`. -/
def set_plat_common (dev : amd_mp2_dev) (b : Nat) (c : amd_i2c_common) : amd_mp2_dev :=
  match b with
  | 0 => { dev with plat_common := (some c, dev.plat_common.2) }
  | 1 => { dev with plat_common := (dev.plat_common.1, some c) }
  | _ => dev

/-- The bus holding the mailbox: the bus recorded in `c2p_lock_busid` while
`c2p_lock` is locked, none otherwise. -/
def holder (dev : amd_mp2_dev) : Option Nat :=
  if dev.c2p_lock = true then some dev.c2p_lock_busid else none

/-! ## Mailbox Arbiter (declared at lines 201-202) -/

/-- Modelled from the spec: `amd_mp2_c2p_mutex_lock`, whose body is not in the
header. "acquire(device, bus_id)" takes the device-wide lock and "records bus_id
as current holder"; it "blocks the calling thread until free", which for one
call run to its end is no result while the lock is held. -/
def amd_mp2_c2p_mutex_lock (dev : amd_mp2_dev) (b : Nat) : Option amd_mp2_dev :=
  if dev.c2p_lock = true then none
  else some { dev with c2p_lock := true, c2p_lock_busid := b }

/-- Modelled from the spec: `amd_mp2_c2p_mutex_unlock`, whose body is not in the
header: "release(device)" frees the mailbox. -/
def amd_mp2_c2p_mutex_unlock (dev : amd_mp2_dev) : amd_mp2_dev :=
  { dev with c2p_lock := false }

/-! ## Completion Dispatcher -/

/-- Modelled from the spec: the Completion Dispatcher (section 4.5), whose body
is not in the header. Given the event word read from the response register it
"identifies the target Per-Bus Context via the arbiter's recorded holder, stores
the decoded event into that context's event slot, and wakes the context's
waiter"; "if no bus currently holds the mailbox, or the decoded bus id does not
match the holder, the event is discarded". The result is the device and the bus
whose waiter was woken, if any. -/
def completion_dispatch (dev : amd_mp2_dev) (event : Nat) : amd_mp2_dev × Option Nat :=
  match holder dev with
  | none => (dev, none)
  | some b =>
    if i2c_event.bus_id event = b then
      match plat_common_at dev b with
      | some c => (set_plat_common dev b { c with eventval := event }, some b)
      | none => (dev, none)
    else (dev, none)

/-! ## Transfer Manager (declared at lines 204-206) -/

/-- Modelled from the spec: the inline-payload capacity in bytes, which the spec
leaves unnamed: the eight data registers `AMD_C2P_MSG2 .. AMD_C2P_MSG9` of four
bytes each. It is the `32` of the comments on `struct i2c_rw_config`. -/
def inline_capacity : Nat := 4 * c2p_data_regs.length

/-- Modelled from the spec: step (1) of the Transfer Manager, "populate Transfer
Configuration"; no DMA mapping exists yet. -/
def populate_rw_cfg (slave_addr length : Nat) (buf : List Nat) : i2c_rw_config :=
  { slave_addr := slave_addr, length := length, buf := buf,
    dma_addr := none, dma_direction := none }

/-- Modelled from the spec: the choice of step (2), "inline mailbox words when
length ≤ inline-payload capacity, otherwise" DMA; the body is not in the header. -/
def select_mem_type (length : Nat) : mem_type :=
  if length ≤ inline_capacity then mem_type.use_c2pmsg else mem_type.use_dram

/-- Modelled from the spec: step (2) of the Transfer Manager on a configuration:
for a DMA transfer the buffer is mapped, at the address `handle` given by the
DMA-mapping service, in direction `dir`. -/
def choose_location (cfg : i2c_rw_config) (handle : Nat) (dir : dma_data_direction) :
    i2c_rw_config × mem_type :=
  match select_mem_type cfg.length with
  | mem_type.use_c2pmsg => (cfg, mem_type.use_c2pmsg)
  | mem_type.use_dram =>
    ({ cfg with dma_addr := some handle, dma_direction := some dir }, mem_type.use_dram)

/-- Modelled from the spec: the error kinds of section 7 that a transfer can
return; `ProtocolFailure` carries the status of the event. -/
inductive xfer_error where
  | InvalidRequest
  | ProtocolFailure (status : Nat)
  | Timeout
  deriving DecidableEq, Repr

/-- Modelled from the spec: what the collaborators do during one transfer: the
address the DMA-mapping service maps the buffer at, the event word the
co-processor raises within the wait bound (`none`: it never interrupts), and the
words it stages for a read. -/
structure xfer_env where
  dma_handle : Nat
  reply : Option Nat
  data : List Nat
  deriving DecidableEq, Repr

/-- Modelled from the spec: the completion code a request expects. -/
def expected_status : i2c_cmd → Option status_type
  | .i2c_read => some .i2c_readcomplete_event
  | .i2c_write => some .i2c_writecomplete_event
  | .i2c_enable => some .i2c_busenable_complete
  | .i2c_disable => some .i2c_busdisable_complete
  | _ => none

/-- Modelled from the spec: the direction of the DMA mapping of a request, from
the device for a read and to the device otherwise. -/
def dma_dir_of : i2c_cmd → dma_data_direction
  | .i2c_read => .from_device
  | _ => .to_device

/-- The command register of a bus: `AMD_C2P_MSG0` is the "MP2 Message for I2C0",
`AMD_C2P_MSG1` the "MP2 Message for I2C1". -/
def c2p_cmd_reg (b : Nat) : Nat :=
  if b = 0 then AMD_C2P_MSG0 else AMD_C2P_MSG1

/-- Modelled from the spec: steps (1) and (2) of the Transfer Manager on the
context `c` of bus `b`: the request is recorded, the location is chosen and the
context goes from Idle to Awaiting-Mailbox. The result is the device and the
chosen location. -/
def xfer_begin (dev : amd_mp2_dev) (b : Nat) (c : amd_i2c_common) (reqcmd : i2c_cmd)
    (slave_addr length : Nat) (buf : List Nat) (env : xfer_env) : amd_mp2_dev × mem_type :=
  let loc := choose_location (populate_rw_cfg slave_addr length buf) env.dma_handle
    (dma_dir_of reqcmd)
  (set_plat_common dev b
    { c with rw_cfg := loc.1, reqcmd := reqcmd, state := bus_state.AwaitingMailbox }, loc.2)

/-- Modelled from the spec: steps (4) and (5) up to the wait, once the arbiter
granted the mailbox: the command word is encoded and written to the command
register of the bus, after the inline words or the DMA address in the data
registers; the bounded wait is armed and the context is in Command-Sent. -/
def write_command (dev : amd_mp2_dev) (b : Nat) (c : amd_i2c_common) (loc : mem_type) :
    amd_mp2_dev :=
  let word := i2c_cmd_base.encode c.reqcmd.toNat c.bus_id c.rw_cfg.slave_addr
    c.rw_cfg.length c.i2c_speed.toNat loc.toNat
  let payload : List (Nat × Nat) :=
    match c.rw_cfg.dma_addr with
    | some a => [(AMD_C2P_MSG3, a / 2 ^ 32), (AMD_C2P_MSG2, a % 2 ^ 32)]
    | none => if c.reqcmd = i2c_cmd.i2c_write then (c2p_data_regs.zip c.rw_cfg.buf).reverse
        else []
  set_plat_common { dev with mmio := (c2p_cmd_reg b, word) :: (payload ++ dev.mmio) } b
    { c with work := true, state := bus_state.CommandSent }

/-- Modelled from the spec: the wait of step (5) on bus `b`. The event raised by
the co-processor, if any, goes through the Completion Dispatcher; the context is
Completed when its waiter was woken and TimedOut when the bound expired first.
The delayed work is no longer armed. -/
def wait_completion (dev : amd_mp2_dev) (b : Nat) (reply : Option Nat) : amd_mp2_dev :=
  let d : amd_mp2_dev × Option Nat :=
    match reply with
    | some event => completion_dispatch dev event
    | none => (dev, none)
  match plat_common_at d.1 b with
  | none => d.1
  | some c =>
    set_plat_common d.1 b
      { c with work := false,
               state := if d.2 = some b then bus_state.Completed else bus_state.TimedOut }

/-- Modelled from the spec: step (6), the result read from a context after the
wait: success when the event says `command_success` with the expected completion
code (for a read the staged words, cut to the length in words), the status as a
`ProtocolFailure` otherwise, `Timeout` when the wait bound expired. -/
def xfer_result (c : amd_i2c_common) (data : List Nat) : Except xfer_error (List Nat) :=
  match c.state with
  | bus_state.Completed =>
    if response_type.ofNat? (i2c_event.response c.eventval) = some response_type.command_success
        ∧ status_type.ofNat? (i2c_event.status c.eventval) = expected_status c.reqcmd
        ∧ (expected_status c.reqcmd).isSome = true then
      Except.ok (if c.reqcmd = i2c_cmd.i2c_read then data.take ((c.rw_cfg.length + 3) / 4) else [])
    else Except.error (xfer_error.ProtocolFailure (i2c_event.status c.eventval))
  | _ => Except.error xfer_error.Timeout

/-- Modelled from the spec: steps (7) and (8): the DMA mapping, if any, is torn
down, the mailbox is released and the context returns to Idle. -/
def xfer_end (dev : amd_mp2_dev) (b : Nat) (c : amd_i2c_common) : amd_mp2_dev :=
  amd_mp2_c2p_mutex_unlock (set_plat_common dev b
    { c with rw_cfg := { c.rw_cfg with dma_addr := none, dma_direction := none },
             state := bus_state.Idle })

/-- Modelled from the spec: one request of the Transfer Manager on bus `b`
(section 4.4, steps 1 to 8); the bodies of `amd_mp2_read`, `amd_mp2_write` and
`amd_mp2_connect` are not in the header. A request out of range is rejected
"before any register access". There is no result when bus `b` has no context or
when the mailbox is held, where the call blocks. -/
def amd_mp2_xfer (dev : amd_mp2_dev) (b : Nat) (reqcmd : i2c_cmd) (slave_addr length : Nat)
    (buf : List Nat) (env : xfer_env) :
    Option (amd_mp2_dev × Except xfer_error (List Nat)) :=
  match plat_common_at dev b with
  | none => none
  | some c0 =>
    if ¬ (slave_addr < 256 ∧ length < 4096) then
      some (dev, Except.error xfer_error.InvalidRequest)
    else
      let d1 := xfer_begin dev b c0 reqcmd slave_addr length buf env
      match amd_mp2_c2p_mutex_lock d1.1 b with
      | none => none
      | some d2 =>
        match plat_common_at d2 b with
        | none => none
        | some c2 =>
          let d3 := wait_completion (write_command d2 b c2 d1.2) b env.reply
          match plat_common_at d3 b with
          | none => none
          | some c3 => some (xfer_end d3 b c3, xfer_result c3 env.data)

/-- Modelled from the spec: `read(bus_context)`. -/
def amd_mp2_read (dev : amd_mp2_dev) (b slave_addr length : Nat) (env : xfer_env) :
    Option (amd_mp2_dev × Except xfer_error (List Nat)) :=
  amd_mp2_xfer dev b i2c_cmd.i2c_read slave_addr length [] env

/-- Modelled from the spec: `write(bus_context, bytes)`, with the bytes given as
a length and the words of the buffer. -/
def amd_mp2_write (dev : amd_mp2_dev) (b slave_addr length : Nat) (buf : List Nat)
    (env : xfer_env) : Option (amd_mp2_dev × Except xfer_error (List Nat)) :=
  amd_mp2_xfer dev b i2c_cmd.i2c_write slave_addr length buf env

/-- Modelled from the spec: `set_bus_enabled(bus_context, bool)`. -/
def amd_mp2_connect (dev : amd_mp2_dev) (b : Nat) (enable : Bool) (env : xfer_env) :
    Option (amd_mp2_dev × Except xfer_error (List Nat)) :=
  amd_mp2_xfer dev b (if enable then i2c_cmd.i2c_enable else i2c_cmd.i2c_disable) 0 0 [] env

/-- The postcondition of a returned request on bus `b`: its context is Idle, has
no DMA mapping and no armed wait, and bus `b` does not hold the mailbox. -/
def released (dev : amd_mp2_dev) (b : Nat) : Prop :=
  (∃ c, plat_common_at dev b = some c ∧ c.state = bus_state.Idle ∧
      c.rw_cfg.dma_addr = none ∧ c.rw_cfg.dma_direction = none ∧ c.work = false) ∧
    holder dev ≠ some b

/-! ## The two buses side by side -/

/-- Modelled from the spec: one step of the device when the two buses run their
requests side by side. A request of the Transfer Manager (section 4.4) is cut at
the points where it can be suspended: `request` is steps (1) and (2), `grant` is
the arbiter granting the mailbox followed by the write of the command word,
`wait` is the end of the bounded wait, by the interrupt carrying `reply` or by
the bound, and `finish` is steps (7) and (8). `irq` is the Completion Dispatcher
run on an interrupt that ends nobody's wait. -/
inductive xfer_step where
  | request (b : Nat) (reqcmd : i2c_cmd) (slave_addr length : Nat) (buf : List Nat)
      (env : xfer_env)
  | grant (b : Nat)
  | wait (b : Nat) (reply : Option Nat)
  | finish (b : Nat)
  | irq (event : Nat)
  deriving DecidableEq, Repr

/-- The bus that takes a step, none for the interrupt. -/
def xfer_step.bus : xfer_step → Option Nat
  | .request b _ _ _ _ _ => some b
  | .grant b => some b
  | .wait b _ => some b
  | .finish b => some b
  | .irq _ => none

/-- The state of the transfer state machine of bus `b`, if the bus has a context. -/
def state_at (dev : amd_mp2_dev) (b : Nat) : Option bus_state :=
  (plat_common_at dev b).map amd_i2c_common.state

/-- Modelled from the spec: the device after one step. Each step is built from
the definition the one-call model `amd_mp2_xfer` uses for it, and is taken only
from the state of the bus it belongs to; a step that cannot be taken leaves the
device as it is: a `grant` while the mailbox is held is the bus staying blocked
in Awaiting-Mailbox. -/
def step (dev : amd_mp2_dev) : xfer_step → amd_mp2_dev
  | .request b reqcmd slave_addr length buf env =>
    match plat_common_at dev b with
    | none => dev
    | some c =>
      if c.state = bus_state.Idle ∧ slave_addr < 256 ∧ length < 4096 then
        (xfer_begin dev b c reqcmd slave_addr length buf env).1
      else dev
  | .grant b =>
    match plat_common_at dev b with
    | none => dev
    | some c =>
      if c.state = bus_state.AwaitingMailbox then
        match amd_mp2_c2p_mutex_lock dev b with
        | none => dev
        | some d2 => write_command d2 b c (select_mem_type c.rw_cfg.length)
      else dev
  | .wait b reply =>
    match plat_common_at dev b with
    | none => dev
    | some c =>
      if c.state = bus_state.CommandSent then wait_completion dev b reply else dev
  | .finish b =>
    match plat_common_at dev b with
    | none => dev
    | some c =>
      if c.state = bus_state.Completed ∨ c.state = bus_state.TimedOut then xfer_end dev b c
      else dev
  | .irq event => (completion_dispatch dev event).1

/-- The device after an interleaving, a list of steps of either bus and of the
interrupt in the order they are taken. -/
def run (dev : amd_mp2_dev) (steps : List xfer_step) : amd_mp2_dev :=
  steps.foldl step dev

/-- Bus `b` is between the grant of the mailbox and its release: its command
word was written and its request has not finished (Command-Sent, Completed or
TimedOut). -/
def in_mailbox_section (dev : amd_mp2_dev) (b : Nat) : Bool :=
  match state_at dev b with
  | some bus_state.CommandSent => true
  | some bus_state.Completed => true
  | some bus_state.TimedOut => true
  | _ => false

/-- The command word of bus `b` is outstanding: written and not yet answered. -/
def command_outstanding (dev : amd_mp2_dev) (b : Nat) : Bool :=
  match state_at dev b with
  | some bus_state.CommandSent => true
  | _ => false

/-- A slot of `plat_common` is empty or holds an Idle context. -/
def slot_idle : Option amd_i2c_common → Bool
  | none => true
  | some c => decide (c.state = bus_state.Idle)

/-- Every bus of the device that has a context is Idle, and the mailbox is free. -/
def all_idle (dev : amd_mp2_dev) : Prop :=
  dev.c2p_lock = false ∧ slot_idle dev.plat_common.1 = true ∧
    slot_idle dev.plat_common.2 = true

instance (dev : amd_mp2_dev) : Decidable (all_idle dev) := by
  unfold all_idle; infer_instance

/-- The invariant of the arbiter: a bus between grant and release is the bus
recorded as holder of the mailbox. -/
def mailbox_inv (dev : amd_mp2_dev) : Prop :=
  ∀ b, in_mailbox_section dev b = true → holder dev = some b

/-! ## Example states -/

/-- Modelled from the spec: the Per-Bus Context as created at registration
(`register_bus(device, bus_id, speed_hint)`): Idle, no event, nothing mapped. -/
def fresh_common (bus_id : Nat) (speed : speed_enum) : amd_i2c_common :=
  { eventval := 0, rw_cfg := populate_rw_cfg 0 0 [], work := false,
    reqcmd := i2c_cmd.i2c_read, bus_id := bus_id, i2c_speed := speed,
    state := bus_state.Idle }

/-- A device with its two buses registered, bus 0 at 400k and bus 1 at 100k, and
the mailbox free. -/
def two_bus_dev : amd_mp2_dev :=
  { plat_common := (some (fresh_common 0 speed_enum.speed400k),
      some (fresh_common 1 speed_enum.speed100k)),
    mmio := [], c2p_lock := false, c2p_lock_busid := 0 }

/-- The device `two_bus_dev` while bus 1 holds the mailbox. -/
def two_bus_dev_held1 : amd_mp2_dev :=
  { two_bus_dev with c2p_lock := true, c2p_lock_busid := 1 }

/-- The device `two_bus_dev` after a 256-byte write to slave `0x50` on bus 1 that
timed out: the DMA address `0x1000` and the command word `0x01005011` were
written, and nothing is held. -/
def two_bus_dev_timed_out : amd_mp2_dev :=
  { plat_common := (some (fresh_common 0 speed_enum.speed400k),
      some { fresh_common 1 speed_enum.speed100k with
        rw_cfg := populate_rw_cfg 0x50 256 [1, 2, 3], reqcmd := i2c_cmd.i2c_write }),
    mmio := [(AMD_C2P_MSG1, 0x01005011), (AMD_C2P_MSG3, 0), (AMD_C2P_MSG2, 0x1000)],
    c2p_lock := false, c2p_lock_busid := 1 }

/-- Both buses of a device ask for the mailbox: bus 1 requests a 256-byte write to
slave `0x50`, bus 0 requests a bus enable, and the arbiter grants bus 1. -/
def contended_steps : List xfer_step :=
  [xfer_step.request 1 i2c_cmd.i2c_write 0x50 256 [1, 2, 3] ⟨0x1000, none, []⟩,
   xfer_step.request 0 i2c_cmd.i2c_enable 0 0 [] ⟨0, none, []⟩,
   xfer_step.grant 1]

/-! ## Lemmas on bit-field access -/

theorem U32_MAX_eq : U32_MAX = 2 ^ 32 - 1 := by
  unfold U32_MAX; norm_num

theorem testBit_bf_get (ul off width i : Nat) :
    (bf_get ul off width).testBit i = (decide (i < width) && ul.testBit (off + i)) := by
  unfold bf_get bf_mask
  rw [Nat.testBit_and, Nat.testBit_shiftRight, Nat.testBit_two_pow_sub_one, Bool.and_comm]

theorem bf_get_eq_div_mod (ul off width : Nat) :
    bf_get ul off width = ul / 2 ^ off % 2 ^ width := by
  unfold bf_get bf_mask
  rw [Nat.and_pow_two_sub_one_eq_mod, Nat.shiftRight_eq_div_pow]

theorem testBit_bf_set (ul off width v j : Nat) (h : off + width ≤ 32) :
    (bf_set ul off width v).testBit j =
      if off ≤ j ∧ j < off + width then v.testBit (j - off)
      else (decide (j < 32) && ul.testBit j) := by
  unfold bf_set bf_mask
  rw [U32_MAX_eq]
  simp only [Nat.testBit_or, Nat.testBit_and, Nat.testBit_xor, Nat.testBit_shiftLeft,
    Nat.testBit_two_pow_sub_one]
  by_cases h1 : off ≤ j
  · by_cases h2 : j < off + width
    · have h3 : j - off < width := by omega
      have h4 : j < 32 := by omega
      simp [h1, h2, h3, h4]
    · have h3 : ¬ j - off < width := by omega
      simp [h1, h2, h3]
      by_cases h4 : j < 32 <;> simp [h4]
  · simp [h1]
    by_cases h4 : j < 32 <;> simp [h4]

theorem bf_set_lt (ul off width v : Nat) (h : off + width ≤ 32) :
    bf_set ul off width v < 2 ^ 32 := by
  apply Nat.lt_pow_two_of_testBit
  intro i hi
  rw [testBit_bf_set ul off width v i h]
  have h1 : ¬ (off ≤ i ∧ i < off + width) := by omega
  have h2 : ¬ i < 32 := by omega
  simp [h1, h2]

theorem bf_get_bf_set_same (ul off width v : Nat) (h : off + width ≤ 32) :
    bf_get (bf_set ul off width v) off width = v % 2 ^ width := by
  apply Nat.eq_of_testBit_eq
  intro i
  rw [testBit_bf_get, testBit_bf_set ul off width v (off + i) h, Nat.testBit_mod_two_pow]
  by_cases hi : i < width
  · have h1 : off ≤ off + i ∧ off + i < off + width := by omega
    simp [hi, h1]
  · simp [hi]

theorem bf_get_bf_set_other (ul off width v off2 width2 : Nat) (h : off + width ≤ 32)
    (h2 : off2 + width2 ≤ 32) (hd : off2 + width2 ≤ off ∨ off + width ≤ off2) :
    bf_get (bf_set ul off width v) off2 width2 = bf_get ul off2 width2 := by
  apply Nat.eq_of_testBit_eq
  intro i
  rw [testBit_bf_get, testBit_bf_get, testBit_bf_set ul off width v (off2 + i) h]
  by_cases hi : i < width2
  · have h1 : ¬ (off ≤ off2 + i ∧ off2 + i < off + width) := by omega
    have h3 : off2 + i < 32 := by omega
    simp [hi, h1, h3]
  · simp [hi]

theorem bf_get_zero (off width : Nat) : bf_get 0 off width = 0 := by
  simp [bf_get]

namespace i2c_cmd_base

theorem cmd_encode_lt (op bus slave len speed loc : Nat) :
    encode op bus slave len speed loc < 2 ^ 32 := by
  unfold encode set_mem_type
  exact bf_set_lt _ _ _ _ (by decide)

theorem cmd_decode_encode_mod (op bus slave len speed loc : Nat) :
    decode (encode op bus slave len speed loc) =
      { i2c_cmd := op % 16, bus_id := bus % 16, slave_addr := slave % 256,
        length := len % 4096, i2c_speed := speed % 8, mem_type := loc % 2 } := by
  simp [decode, encode, i2c_cmd, bus_id, slave_addr, length, i2c_speed, mem_type,
    set_i2c_cmd, set_bus_id, set_slave_addr, set_length, set_i2c_speed, set_mem_type,
    bf_get_bf_set_same, bf_get_bf_set_other, bf_get_zero]

theorem cmd_ul_eq_fields (ul : Nat) (h : ul < 2 ^ 32) :
    ul = i2c_cmd ul + bus_id ul * 2 ^ 4 + slave_addr ul * 2 ^ 8 + length ul * 2 ^ 16 +
      i2c_speed ul * 2 ^ 28 + mem_type ul * 2 ^ 31 := by
  simp only [i2c_cmd, bus_id, slave_addr, length, i2c_speed, mem_type, bf_get_eq_div_mod]
  norm_num at h ⊢
  omega

theorem cmd_decode_in_range (ul : Nat) : in_range (decode ul) := by
  simp only [in_range, decode, i2c_cmd, bus_id, slave_addr, length, i2c_speed, mem_type,
    bf_get_eq_div_mod]
  norm_num
  refine ⟨?_, ?_, ?_, ?_, ?_, ?_⟩ <;> omega

theorem cmd_decode_pack_of_in_range (f : s) (h : in_range f) : decode (pack f) = f := by
  obtain ⟨h1, h2, h3, h4, h5, h6⟩ := h
  rw [pack, cmd_decode_encode_mod]
  cases f
  simp only [s.mk.injEq] at *
  refine ⟨?_, ?_, ?_, ?_, ?_, ?_⟩ <;> omega

theorem cmd_decode_injective (v w : Nat) (hv : v < 2 ^ 32) (hw : w < 2 ^ 32)
    (h : decode v = decode w) : v = w := by
  rw [cmd_ul_eq_fields v hv, cmd_ul_eq_fields w hw]
  simp only [decode, s.mk.injEq] at h
  obtain ⟨h1, h2, h3, h4, h5, h6⟩ := h
  rw [h1, h2, h3, h4, h5, h6]

theorem cmd_pack_decode (w : Nat) (hw : w < 2 ^ 32) : pack (decode w) = w :=
  cmd_decode_injective _ _ (cmd_encode_lt _ _ _ _ _ _) hw
    (cmd_decode_pack_of_in_range _ (cmd_decode_in_range w))

end i2c_cmd_base

namespace i2c_event

theorem event_pack_lt (f : r) : pack f < 2 ^ 32 := by
  unfold pack set_slave_addr
  exact bf_set_lt _ _ _ _ (by decide)

theorem event_decode_pack_mod (f : r) :
    decode (pack f) =
      { response := f.response % 4, status := f.status % 32, mem_type := f.mem_type % 2,
        bus_id := f.bus_id % 16, length := f.length % 4096,
        slave_addr := f.slave_addr % 256 } := by
  simp [decode, pack, response, status, mem_type, bus_id, length, slave_addr,
    set_response, set_status, set_mem_type, set_bus_id, set_length, set_slave_addr,
    bf_get_bf_set_same, bf_get_bf_set_other, bf_get_zero]

theorem event_ul_eq_fields (ul : Nat) (h : ul < 2 ^ 32) :
    ul = response ul + status ul * 2 ^ 2 + mem_type ul * 2 ^ 7 + bus_id ul * 2 ^ 8 +
      length ul * 2 ^ 12 + slave_addr ul * 2 ^ 24 := by
  simp only [response, status, mem_type, bus_id, length, slave_addr, bf_get_eq_div_mod]
  norm_num at h ⊢
  omega

theorem event_decode_in_range (ul : Nat) : in_range (decode ul) := by
  simp only [in_range, decode, response, status, mem_type, bus_id, length, slave_addr,
    bf_get_eq_div_mod]
  norm_num
  refine ⟨?_, ?_, ?_, ?_, ?_, ?_⟩ <;> omega

theorem event_decode_pack_of_in_range (f : r) (h : in_range f) : decode (pack f) = f := by
  obtain ⟨h1, h2, h3, h4, h5, h6⟩ := h
  rw [event_decode_pack_mod]
  cases f
  simp only [r.mk.injEq] at *
  refine ⟨?_, ?_, ?_, ?_, ?_, ?_⟩ <;> omega

theorem event_decode_injective (v w : Nat) (hv : v < 2 ^ 32) (hw : w < 2 ^ 32)
    (h : decode v = decode w) : v = w := by
  rw [event_ul_eq_fields v hv, event_ul_eq_fields w hw]
  simp only [decode, r.mk.injEq] at h
  obtain ⟨h1, h2, h3, h4, h5, h6⟩ := h
  rw [h1, h2, h3, h4, h5, h6]

theorem event_pack_decode (w : Nat) (hw : w < 2 ^ 32) : pack (decode w) = w :=
  event_decode_injective _ _ (event_pack_lt _) hw (event_decode_pack_of_in_range _ (event_decode_in_range w))

end i2c_event

theorem i2c_event.event_decode_eq_div_mod (w : Nat) (hw : w < 2 ^ 32) :
    i2c_event.decode w =
      { response := w % 4, status := w / 2 ^ 2 % 32, mem_type := w / 2 ^ 7 % 2,
        bus_id := w / 2 ^ 8 % 16, length := w / 2 ^ 12 % 4096, slave_addr := w / 2 ^ 24 } := by
  simp only [i2c_event.decode, i2c_event.response, i2c_event.status, i2c_event.mem_type,
    i2c_event.bus_id, i2c_event.length, i2c_event.slave_addr, bf_get_eq_div_mod,
    i2c_event.r.mk.injEq]
  norm_num at hw ⊢
  omega

theorem response_type.isSome_ofNat? (n : Nat) :
    (response_type.ofNat? n).isSome = true ↔ n < 3 := by
  rcases n with _ | _ | _ | n <;> simp [response_type.ofNat?]

theorem status_type.status_isSome_ofNat? (n : Nat) :
    (status_type.ofNat? n).isSome = true ↔ n < 16 := by
  by_cases h : n < 16
  · interval_cases n <;> simp [status_type.ofNat?]
  · obtain ⟨k, rfl⟩ : ∃ k, n = k + 16 := ⟨n - 16, by omega⟩
    simp [status_type.ofNat?]

/-! ## Lemmas on the contexts -/

theorem lt_two_of_plat_common_at (dev : amd_mp2_dev) (b : Nat) (c : amd_i2c_common)
    (h : plat_common_at dev b = some c) : b < 2 := by
  rcases b with _ | _ | b
  · omega
  · omega
  · simp [plat_common_at] at h

theorem plat_common_at_set_same (dev : amd_mp2_dev) (b : Nat) (c : amd_i2c_common)
    (hb : b < 2) : plat_common_at (set_plat_common dev b c) b = some c := by
  rcases b with _ | _ | b
  · rfl
  · rfl
  · omega

theorem plat_common_at_set_other (dev : amd_mp2_dev) (b b2 : Nat) (c : amd_i2c_common)
    (hb : b2 ≠ b) : plat_common_at (set_plat_common dev b c) b2 = plat_common_at dev b2 := by
  rcases b with _ | _ | b <;> rcases b2 with _ | _ | b2 <;>
    first
      | rfl
      | exact absurd rfl hb

theorem set_plat_common_c2p_lock (dev : amd_mp2_dev) (b : Nat) (c : amd_i2c_common) :
    (set_plat_common dev b c).c2p_lock = dev.c2p_lock := by
  rcases b with _ | _ | b <;> rfl

theorem holder_eq_none_of_unlocked (dev : amd_mp2_dev) (h : dev.c2p_lock = false) :
    holder dev = none := by
  simp [holder, h]

theorem completion_dispatch_eq (dev : amd_mp2_dev) (event : Nat) :
    completion_dispatch dev event = (dev, none) ∨
      ∃ b c, holder dev = some b ∧ i2c_event.bus_id event = b ∧
        plat_common_at dev b = some c ∧
        completion_dispatch dev event =
          (set_plat_common dev b { c with eventval := event }, some b) := by
  unfold completion_dispatch
  cases hh : holder dev with
  | none => exact Or.inl rfl
  | some b =>
    by_cases hb : i2c_event.bus_id event = b
    · cases hc : plat_common_at dev b with
      | none => left; simp [hb, hc]
      | some c => right; exact ⟨b, c, rfl, hb, hc, by simp [hb, hc]⟩
    · left; simp [hb]

theorem completion_dispatch_keeps_ctx (dev : amd_mp2_dev) (event b : Nat)
    (c : amd_i2c_common) (h : plat_common_at dev b = some c) :
    ∃ c2, plat_common_at (completion_dispatch dev event).1 b = some c2 := by
  rcases completion_dispatch_eq dev event with h1 | ⟨b2, c2, _, _, hc2, h1⟩
  · rw [h1]; exact ⟨c, h⟩
  · rw [h1]
    by_cases hb : b = b2
    · subst hb
      exact ⟨_, plat_common_at_set_same dev b _ (lt_two_of_plat_common_at dev b c h)⟩
    · exact ⟨c, by simpa [plat_common_at_set_other dev b2 b _ hb] using h⟩

theorem wait_completion_ctx (dev : amd_mp2_dev) (b : Nat) (reply : Option Nat)
    (c : amd_i2c_common) (h : plat_common_at dev b = some c) :
    ∃ c2, plat_common_at (wait_completion dev b reply) b = some c2 ∧ c2.work = false := by
  have hb := lt_two_of_plat_common_at dev b c h
  unfold wait_completion
  cases reply with
  | none =>
    simp only [h]
    exact ⟨_, plat_common_at_set_same _ _ _ hb, rfl⟩
  | some event =>
    obtain ⟨c2, hc2⟩ := completion_dispatch_keeps_ctx dev event b c h
    simp only [hc2]
    exact ⟨_, plat_common_at_set_same _ _ _ hb, rfl⟩

theorem plat_common_at_unlock (dev : amd_mp2_dev) (b : Nat) :
    plat_common_at (amd_mp2_c2p_mutex_unlock dev) b = plat_common_at dev b := by
  rcases b with _ | _ | b <;> rfl

theorem plat_common_at_lock (dev : amd_mp2_dev) (b busid : Nat) :
    plat_common_at { dev with c2p_lock := true, c2p_lock_busid := busid } b =
      plat_common_at dev b := by
  rcases b with _ | _ | b <;> rfl

theorem plat_common_at_xfer_begin (dev : amd_mp2_dev) (b : Nat) (c : amd_i2c_common)
    (reqcmd : i2c_cmd) (slave_addr length : Nat) (buf : List Nat) (env : xfer_env)
    (hb : b < 2) :
    ∃ c2, plat_common_at (xfer_begin dev b c reqcmd slave_addr length buf env).1 b =
      some c2 := by
  unfold xfer_begin
  exact ⟨_, plat_common_at_set_same dev b _ hb⟩

theorem plat_common_at_write_command (dev : amd_mp2_dev) (b : Nat) (c : amd_i2c_common)
    (loc : mem_type) (hb : b < 2) :
    plat_common_at (write_command dev b c loc) b =
      some { c with work := true, state := bus_state.CommandSent } := by
  unfold write_command
  exact plat_common_at_set_same _ b _ hb

theorem released_xfer_end (dev : amd_mp2_dev) (b : Nat) (c : amd_i2c_common) (hb : b < 2)
    (hw : c.work = false) : released (xfer_end dev b c) b := by
  unfold released xfer_end
  rw [plat_common_at_unlock, plat_common_at_set_same dev b _ hb]
  refine ⟨⟨_, rfl, rfl, rfl, rfl, hw⟩, ?_⟩
  rw [holder_eq_none_of_unlocked _ rfl]
  exact fun h => Option.noConfusion h

theorem amd_mp2_c2p_mutex_lock_some (dev d2 : amd_mp2_dev) (b : Nat)
    (h : amd_mp2_c2p_mutex_lock dev b = some d2) :
    dev.c2p_lock = false ∧ ∀ b2, plat_common_at d2 b2 = plat_common_at dev b2 := by
  unfold amd_mp2_c2p_mutex_lock at h
  cases hl : dev.c2p_lock with
  | true => simp [hl] at h
  | false =>
    simp only [hl, Bool.false_eq_true, if_false, Option.some.injEq] at h
    subst h
    exact ⟨rfl, fun b2 => plat_common_at_lock dev b2 b⟩

theorem amd_mp2_c2p_mutex_lock_none (dev : amd_mp2_dev) (b : Nat)
    (h : amd_mp2_c2p_mutex_lock dev b = none) : dev.c2p_lock = true := by
  unfold amd_mp2_c2p_mutex_lock at h
  cases hl : dev.c2p_lock with
  | true => rfl
  | false => simp [hl] at h

theorem amd_mp2_xfer_spec (dev : amd_mp2_dev) (b : Nat) (reqcmd : i2c_cmd)
    (slave_addr length : Nat) (buf : List Nat) (env : xfer_env) (c0 : amd_i2c_common)
    (h0 : plat_common_at dev b = some c0) (hidle : c0.state = bus_state.Idle)
    (hdma : c0.rw_cfg.dma_addr = none) (hdir : c0.rw_cfg.dma_direction = none)
    (hwork : c0.work = false) (hfree : holder dev ≠ some b) :
    (∀ dev2 res, amd_mp2_xfer dev b reqcmd slave_addr length buf env = some (dev2, res) →
        released dev2 b) ∧
      (dev.c2p_lock = false →
        (amd_mp2_xfer dev b reqcmd slave_addr length buf env).isSome = true) := by
  have hb := lt_two_of_plat_common_at dev b c0 h0
  unfold amd_mp2_xfer
  simp only [h0]
  split_ifs with hv
  · have hl : (xfer_begin dev b c0 reqcmd slave_addr length buf env).1.c2p_lock =
        dev.c2p_lock := by
      unfold xfer_begin; exact set_plat_common_c2p_lock _ _ _
    cases hlk : amd_mp2_c2p_mutex_lock
        (xfer_begin dev b c0 reqcmd slave_addr length buf env).1 b with
    | none =>
      have := amd_mp2_c2p_mutex_lock_none _ _ hlk
      rw [hl] at this
      simp [this]
    | some d2 =>
      obtain ⟨_, hp⟩ := amd_mp2_c2p_mutex_lock_some _ _ _ hlk
      obtain ⟨c2, hc2⟩ :=
        plat_common_at_xfer_begin dev b c0 reqcmd slave_addr length buf env hb
      rw [← hp b] at hc2
      simp only [hc2]
      obtain ⟨c3, hc3, hw3⟩ := wait_completion_ctx _ b env.reply _
        (plat_common_at_write_command d2 b c2
          (xfer_begin dev b c0 reqcmd slave_addr length buf env).2 hb)
      simp only [hc3]
      refine ⟨?_, fun _ => rfl⟩
      intro dev2 res h
      simp only [Option.some.injEq, Prod.mk.injEq] at h
      rw [← h.1]
      exact released_xfer_end _ b c3 hb hw3
  · refine ⟨?_, fun _ => rfl⟩
    intro dev2 res h
    simp only [Option.some.injEq, Prod.mk.injEq] at h
    rw [← h.1]
    exact ⟨⟨c0, h0, hidle, hdma, hdir, hwork⟩, hfree⟩

/-! ## Lemmas on the steps of the two buses -/

theorem holder_set_plat_common (dev : amd_mp2_dev) (b : Nat) (c : amd_i2c_common) :
    holder (set_plat_common dev b c) = holder dev := by
  rcases b with _ | _ | b <;> rfl

theorem mmio_set_plat_common (dev : amd_mp2_dev) (b : Nat) (c : amd_i2c_common) :
    (set_plat_common dev b c).mmio = dev.mmio := by
  rcases b with _ | _ | b <;> rfl

theorem state_at_set_same (dev : amd_mp2_dev) (b : Nat) (c : amd_i2c_common)
    (hb : b < 2) : state_at (set_plat_common dev b c) b = some c.state := by
  unfold state_at
  rw [plat_common_at_set_same dev b c hb]
  rfl

theorem state_at_set_other (dev : amd_mp2_dev) (b b2 : Nat) (c : amd_i2c_common)
    (hb : b2 ≠ b) : state_at (set_plat_common dev b c) b2 = state_at dev b2 := by
  unfold state_at
  rw [plat_common_at_set_other dev b b2 c hb]

theorem state_at_of_plat_common_at (dev : amd_mp2_dev) (b : Nat) (c : amd_i2c_common)
    (h : plat_common_at dev b = some c) : state_at dev b = some c.state := by
  unfold state_at
  rw [h]
  rfl

theorem completion_dispatch_effect (dev : amd_mp2_dev) (event : Nat) :
    holder (completion_dispatch dev event).1 = holder dev ∧
      (completion_dispatch dev event).1.mmio = dev.mmio ∧
      ∀ b, state_at (completion_dispatch dev event).1 b = state_at dev b := by
  rcases completion_dispatch_eq dev event with h1 | ⟨b2, c2, _, _, hc2, h1⟩
  · rw [h1]
    exact ⟨rfl, rfl, fun _ => rfl⟩
  · rw [h1]
    refine ⟨holder_set_plat_common _ _ _, mmio_set_plat_common _ _ _, ?_⟩
    intro b
    by_cases hb : b = b2
    · subst hb
      rw [state_at_set_same dev b _ (lt_two_of_plat_common_at dev b c2 hc2),
        state_at_of_plat_common_at dev b c2 hc2]
    · exact state_at_set_other dev b2 b _ hb

theorem wait_completion_effect (dev : amd_mp2_dev) (b : Nat) (reply : Option Nat)
    (c : amd_i2c_common) (h : plat_common_at dev b = some c) :
    holder (wait_completion dev b reply) = holder dev ∧
      (wait_completion dev b reply).mmio = dev.mmio ∧
      (state_at (wait_completion dev b reply) b = some bus_state.Completed ∨
        state_at (wait_completion dev b reply) b = some bus_state.TimedOut) ∧
      ∀ b2, b2 ≠ b → state_at (wait_completion dev b reply) b2 = state_at dev b2 := by
  have hb := lt_two_of_plat_common_at dev b c h
  have key : ∀ d : amd_mp2_dev × Option Nat, holder d.1 = holder dev → d.1.mmio = dev.mmio →
      (∀ b2, state_at d.1 b2 = state_at dev b2) →
      (∃ c2, plat_common_at d.1 b = some c2) →
      holder (match plat_common_at d.1 b with
          | none => d.1
          | some c =>
            set_plat_common d.1 b
              { c with work := false,
                       state := if d.2 = some b then bus_state.Completed
                         else bus_state.TimedOut }) = holder dev ∧
        (match plat_common_at d.1 b with
          | none => d.1
          | some c =>
            set_plat_common d.1 b
              { c with work := false,
                       state := if d.2 = some b then bus_state.Completed
                         else bus_state.TimedOut }).mmio = dev.mmio ∧
        (state_at (match plat_common_at d.1 b with
          | none => d.1
          | some c =>
            set_plat_common d.1 b
              { c with work := false,
                       state := if d.2 = some b then bus_state.Completed
                         else bus_state.TimedOut }) b = some bus_state.Completed ∨
          state_at (match plat_common_at d.1 b with
          | none => d.1
          | some c =>
            set_plat_common d.1 b
              { c with work := false,
                       state := if d.2 = some b then bus_state.Completed
                         else bus_state.TimedOut }) b = some bus_state.TimedOut) ∧
        ∀ b2, b2 ≠ b → state_at (match plat_common_at d.1 b with
          | none => d.1
          | some c =>
            set_plat_common d.1 b
              { c with work := false,
                       state := if d.2 = some b then bus_state.Completed
                         else bus_state.TimedOut }) b2 = state_at dev b2 := by
    intro d hh hm hs ⟨c2, hc2⟩
    simp only [hc2]
    refine ⟨by rw [holder_set_plat_common, hh], by rw [mmio_set_plat_common, hm], ?_, ?_⟩
    · rw [state_at_set_same _ b _ hb]
      by_cases hd : d.2 = some b
      · left; simp [hd]
      · right; simp [hd]
    · intro b2 hb2
      rw [state_at_set_other _ b b2 _ hb2, hs]
  unfold wait_completion
  cases reply with
  | none => exact key (dev, none) rfl rfl (fun _ => rfl) ⟨c, h⟩
  | some event =>
    obtain ⟨e1, e2, e3⟩ := completion_dispatch_effect dev event
    exact key (completion_dispatch dev event) e1 e2 e3
      (completion_dispatch_keeps_ctx dev event b c h)

theorem state_at_unlock (dev : amd_mp2_dev) (b : Nat) :
    state_at (amd_mp2_c2p_mutex_unlock dev) b = state_at dev b := by
  unfold state_at
  rw [plat_common_at_unlock]

theorem state_at_lock (dev : amd_mp2_dev) (b busid : Nat) :
    state_at { dev with c2p_lock := true, c2p_lock_busid := busid } b = state_at dev b := by
  unfold state_at
  rw [plat_common_at_lock]

theorem state_at_mmio (dev : amd_mp2_dev) (b : Nat) (m : List (Nat × Nat)) :
    state_at { dev with mmio := m } b = state_at dev b := by
  rcases b with _ | _ | b <;> rfl

theorem xfer_begin_effect (dev : amd_mp2_dev) (b : Nat) (c : amd_i2c_common)
    (reqcmd : i2c_cmd) (slave_addr length : Nat) (buf : List Nat) (env : xfer_env)
    (hb : b < 2) :
    holder (xfer_begin dev b c reqcmd slave_addr length buf env).1 = holder dev ∧
      (xfer_begin dev b c reqcmd slave_addr length buf env).1.mmio = dev.mmio ∧
      state_at (xfer_begin dev b c reqcmd slave_addr length buf env).1 b =
        some bus_state.AwaitingMailbox ∧
      ∀ b2, b2 ≠ b →
        state_at (xfer_begin dev b c reqcmd slave_addr length buf env).1 b2 =
          state_at dev b2 := by
  unfold xfer_begin
  exact ⟨holder_set_plat_common _ _ _, mmio_set_plat_common _ _ _,
    state_at_set_same _ b _ hb, fun b2 h => state_at_set_other _ b b2 _ h⟩

theorem write_command_effect (dev : amd_mp2_dev) (b : Nat) (c : amd_i2c_common)
    (loc : mem_type) (hb : b < 2) :
    holder (write_command dev b c loc) = holder dev ∧
      state_at (write_command dev b c loc) b = some bus_state.CommandSent ∧
      ∀ b2, b2 ≠ b → state_at (write_command dev b c loc) b2 = state_at dev b2 := by
  unfold write_command
  refine ⟨?_, state_at_set_same _ b _ hb, ?_⟩
  · rw [holder_set_plat_common]; rfl
  · intro b2 h
    rw [state_at_set_other _ b b2 _ h, state_at_mmio]

theorem xfer_end_effect (dev : amd_mp2_dev) (b : Nat) (c : amd_i2c_common) (hb : b < 2) :
    holder (xfer_end dev b c) = none ∧ (xfer_end dev b c).mmio = dev.mmio ∧
      state_at (xfer_end dev b c) b = some bus_state.Idle ∧
      ∀ b2, b2 ≠ b → state_at (xfer_end dev b c) b2 = state_at dev b2 := by
  unfold xfer_end
  refine ⟨holder_eq_none_of_unlocked _ rfl, ?_, ?_, ?_⟩
  · exact mmio_set_plat_common dev b _
  · rw [state_at_unlock, state_at_set_same _ b _ hb]
  · intro b2 h
    rw [state_at_unlock, state_at_set_other _ b b2 _ h]

theorem step_effect (dev : amd_mp2_dev) (a : xfer_step) :
    (holder (step dev a) = holder dev ∧ (step dev a).mmio = dev.mmio ∧
        ∀ b2, state_at (step dev a) b2 = state_at dev b2) ∨
      ∃ b, a.bus = some b ∧
        (∀ b2, b2 ≠ b → state_at (step dev a) b2 = state_at dev b2) ∧
        ((state_at dev b = some bus_state.Idle ∧ holder (step dev a) = holder dev ∧
            (step dev a).mmio = dev.mmio ∧
            state_at (step dev a) b = some bus_state.AwaitingMailbox) ∨
          (a = xfer_step.grant b ∧ state_at dev b = some bus_state.AwaitingMailbox ∧
            holder dev = none ∧ holder (step dev a) = some b ∧
            state_at (step dev a) b = some bus_state.CommandSent) ∨
          (state_at dev b = some bus_state.CommandSent ∧ holder (step dev a) = holder dev ∧
            (step dev a).mmio = dev.mmio ∧
            (state_at (step dev a) b = some bus_state.Completed ∨
              state_at (step dev a) b = some bus_state.TimedOut)) ∨
          ((state_at dev b = some bus_state.Completed ∨
              state_at dev b = some bus_state.TimedOut) ∧
            holder (step dev a) = none ∧ (step dev a).mmio = dev.mmio ∧
            state_at (step dev a) b = some bus_state.Idle)) := by
  have same : ∀ d : amd_mp2_dev, d = dev →
      holder d = holder dev ∧ d.mmio = dev.mmio ∧ ∀ b2, state_at d b2 = state_at dev b2 := by
    intro d hd; subst hd; exact ⟨rfl, rfl, fun _ => rfl⟩
  cases a with
  | request b reqcmd slave_addr length buf env =>
    simp only [step]
    cases hc : plat_common_at dev b with
    | none => exact Or.inl (same _ rfl)
    | some c =>
      have hb := lt_two_of_plat_common_at dev b c hc
      have hs := state_at_of_plat_common_at dev b c hc
      simp only []
      split_ifs with h
      · obtain ⟨e1, e2, e3, e4⟩ := xfer_begin_effect dev b c reqcmd slave_addr length buf env hb
        refine Or.inr ⟨b, rfl, e4, Or.inl ⟨?_, e1, e2, e3⟩⟩
        rw [hs, h.1]
      · exact Or.inl (same _ rfl)
  | grant b =>
    simp only [step]
    cases hc : plat_common_at dev b with
    | none => exact Or.inl (same _ rfl)
    | some c =>
      have hb := lt_two_of_plat_common_at dev b c hc
      have hs := state_at_of_plat_common_at dev b c hc
      simp only []
      split_ifs with h
      · unfold amd_mp2_c2p_mutex_lock
        cases hl : dev.c2p_lock with
        | true => exact Or.inl (same _ rfl)
        | false =>
          simp only [Bool.false_eq_true, if_false]
          obtain ⟨e1, e2, e3⟩ := write_command_effect
            { dev with c2p_lock := true, c2p_lock_busid := b } b c
            (select_mem_type c.rw_cfg.length) hb
          refine Or.inr ⟨b, rfl, ?_, Or.inr (Or.inl ⟨rfl, ?_, ?_, ?_, e2⟩)⟩
          · intro b2 hb2
            rw [e3 b2 hb2, state_at_lock]
          · rw [hs, h]
          · exact holder_eq_none_of_unlocked dev hl
          · rw [e1]; rfl
      · exact Or.inl (same _ rfl)
  | wait b reply =>
    simp only [step]
    cases hc : plat_common_at dev b with
    | none => exact Or.inl (same _ rfl)
    | some c =>
      have hs := state_at_of_plat_common_at dev b c hc
      simp only []
      split_ifs with h
      · obtain ⟨e1, e2, e3, e4⟩ := wait_completion_effect dev b reply c hc
        refine Or.inr ⟨b, rfl, e4, Or.inr (Or.inr (Or.inl ⟨?_, e1, e2, e3⟩))⟩
        rw [hs, h]
      · exact Or.inl (same _ rfl)
  | finish b =>
    simp only [step]
    cases hc : plat_common_at dev b with
    | none => exact Or.inl (same _ rfl)
    | some c =>
      have hb := lt_two_of_plat_common_at dev b c hc
      have hs := state_at_of_plat_common_at dev b c hc
      simp only []
      split_ifs with h
      · obtain ⟨e1, e2, e3, e4⟩ := xfer_end_effect dev b c hb
        refine Or.inr ⟨b, rfl, e4, Or.inr (Or.inr (Or.inr ⟨?_, e1, e2, e3⟩))⟩
        rw [hs]
        rcases h with h | h
        · left; rw [h]
        · right; rw [h]
      · exact Or.inl (same _ rfl)
  | irq event =>
    exact Or.inl (completion_dispatch_effect dev event)

theorem in_mailbox_section_iff (dev : amd_mp2_dev) (b : Nat) :
    in_mailbox_section dev b = true ↔
      state_at dev b = some bus_state.CommandSent ∨
        state_at dev b = some bus_state.Completed ∨
        state_at dev b = some bus_state.TimedOut := by
  unfold in_mailbox_section
  cases h : state_at dev b with
  | none => simp
  | some st => cases st <;> simp

theorem command_outstanding_iff (dev : amd_mp2_dev) (b : Nat) :
    command_outstanding dev b = true ↔ state_at dev b = some bus_state.CommandSent := by
  unfold command_outstanding
  cases h : state_at dev b with
  | none => simp
  | some st => cases st <;> simp

theorem mailbox_inv_of_all_idle (dev : amd_mp2_dev) (h : all_idle dev) : mailbox_inv dev := by
  obtain ⟨_, h0, h1⟩ := h
  intro b hb
  rw [in_mailbox_section_iff] at hb
  exfalso
  rcases b with _ | _ | b
  · cases hc : dev.plat_common.1 with
    | none => simp [state_at, plat_common_at, hc] at hb
    | some c =>
      simp only [slot_idle, hc, decide_eq_true_eq] at h0
      simp [state_at, plat_common_at, hc, h0] at hb
  · cases hc : dev.plat_common.2 with
    | none => simp [state_at, plat_common_at, hc] at hb
    | some c =>
      simp only [slot_idle, hc, decide_eq_true_eq] at h1
      simp [state_at, plat_common_at, hc, h1] at hb
  · simp [state_at, plat_common_at] at hb

theorem mailbox_inv_step (dev : amd_mp2_dev) (a : xfer_step) (h : mailbox_inv dev) :
    mailbox_inv (step dev a) := by
  intro b2 hb2
  have hinv : ∀ b, (state_at dev b = some bus_state.CommandSent ∨
      state_at dev b = some bus_state.Completed ∨
      state_at dev b = some bus_state.TimedOut) → holder dev = some b :=
    fun b hb => h b ((in_mailbox_section_iff dev b).2 hb)
  rw [in_mailbox_section_iff] at hb2
  rcases step_effect dev a with ⟨e1, _, e3⟩ | ⟨b, _, eo, hcase⟩
  · rw [e1]
    rw [e3 b2] at hb2
    exact hinv b2 hb2
  · by_cases hb : b2 = b
    · subst hb
      rcases hcase with ⟨_, _, _, e⟩ | ⟨_, _, _, e, _⟩ | ⟨e0, e1, _, _⟩ | ⟨_, _, _, e⟩
      · rw [e] at hb2; simp at hb2
      · exact e
      · rw [e1]; exact hinv b2 (Or.inl e0)
      · rw [e] at hb2; simp at hb2
    · rw [eo b2 hb] at hb2
      have hh := hinv b2 hb2
      rcases hcase with ⟨_, e1, _, _⟩ | ⟨_, _, e, _, _⟩ | ⟨_, e1, _, _⟩ | ⟨e0, _, _, _⟩
      · rw [e1]; exact hh
      · rw [e] at hh; simp at hh
      · rw [e1]; exact hh
      · have hh2 := hinv b (Or.inr e0)
        rw [hh] at hh2
        exact absurd (Option.some.inj hh2) hb

theorem mailbox_inv_run (steps : List xfer_step) (dev : amd_mp2_dev) (h : mailbox_inv dev) :
    mailbox_inv (run dev steps) := by
  induction steps generalizing dev with
  | nil => exact h
  | cons a rest ih => exact ih (step dev a) (mailbox_inv_step dev a h)

theorem step_of_other (dev : amd_mp2_dev) (a : xfer_step) (b : Nat) (h : mailbox_inv dev)
    (hin : in_mailbox_section dev b = true) (ha : a.bus ≠ some b) :
    holder (step dev a) = some b ∧ (step dev a).mmio = dev.mmio ∧
      state_at (step dev a) b = state_at dev b := by
  have hh := h b hin
  rcases step_effect dev a with ⟨e1, e2, e3⟩ | ⟨b2, hb2, eo, hcase⟩
  · exact ⟨by rw [e1]; exact hh, e2, e3 b⟩
  · have hne : b ≠ b2 := fun e => ha (by rw [hb2, e])
    refine ⟨?_, ?_, eo b hne⟩
    · rcases hcase with ⟨_, e1, _, _⟩ | ⟨_, _, e, _, _⟩ | ⟨_, e1, _, _⟩ | ⟨e0, _, _, _⟩
      · rw [e1]; exact hh
      · rw [e] at hh; simp at hh
      · rw [e1]; exact hh
      · have hh2 := h b2 ((in_mailbox_section_iff dev b2).2 (Or.inr e0))
        rw [hh] at hh2
        exact absurd (Option.some.inj hh2) hne
    · rcases hcase with ⟨_, _, e2, _⟩ | ⟨_, _, e, _, _⟩ | ⟨_, _, e2, _⟩ | ⟨_, _, e2, _⟩
      · exact e2
      · rw [e] at hh; simp at hh
      · exact e2
      · exact e2

theorem step_writes_only_on_grant (dev : amd_mp2_dev) (a : xfer_step) (h : mailbox_inv dev)
    (hw : (step dev a).mmio ≠ dev.mmio) :
    holder dev = none ∧ (∀ b2, in_mailbox_section dev b2 = false) ∧
      ∃ b, a = xfer_step.grant b ∧ holder (step dev a) = some b := by
  rcases step_effect dev a with ⟨_, e2, _⟩ | ⟨b, _, _, hcase⟩
  · exact absurd e2 hw
  · rcases hcase with ⟨_, _, e2, _⟩ | ⟨ea, _, e, e1, _⟩ | ⟨_, _, e2, _⟩ | ⟨_, _, e2, _⟩
    · exact absurd e2 hw
    · refine ⟨e, ?_, b, ea, e1⟩
      intro b2
      cases hin : in_mailbox_section dev b2 with
      | false => rfl
      | true =>
        have := h b2 hin
        rw [e] at this
        simp at this
    · exact absurd e2 hw
    · exact absurd e2 hw

theorem choose_location_snd (cfg : i2c_rw_config) (handle : Nat) (dir : dma_data_direction) :
    (choose_location cfg handle dir).2 =
      select_mem_type (choose_location cfg handle dir).1.length := by
  unfold choose_location
  cases h : select_mem_type cfg.length <;> simp [h]

theorem step_request_eq (dev : amd_mp2_dev) (b : Nat) (reqcmd : i2c_cmd)
    (slave_addr length : Nat) (buf : List Nat) (env : xfer_env) (c0 : amd_i2c_common)
    (h0 : plat_common_at dev b = some c0) (hidle : c0.state = bus_state.Idle)
    (hv : slave_addr < 256 ∧ length < 4096) :
    step dev (xfer_step.request b reqcmd slave_addr length buf env) =
      (xfer_begin dev b c0 reqcmd slave_addr length buf env).1 := by
  simp only [step, h0]
  rw [if_pos ⟨hidle, hv⟩]

theorem step_grant_eq (dev d2 : amd_mp2_dev) (b : Nat) (c : amd_i2c_common)
    (h0 : plat_common_at dev b = some c) (hs : c.state = bus_state.AwaitingMailbox)
    (hl : amd_mp2_c2p_mutex_lock dev b = some d2) :
    step dev (xfer_step.grant b) = write_command d2 b c (select_mem_type c.rw_cfg.length) := by
  simp only [step, h0, hl]
  rw [if_pos hs]

theorem step_wait_eq (dev : amd_mp2_dev) (b : Nat) (reply : Option Nat) (c : amd_i2c_common)
    (h0 : plat_common_at dev b = some c) (hs : c.state = bus_state.CommandSent) :
    step dev (xfer_step.wait b reply) = wait_completion dev b reply := by
  simp only [step, h0]
  rw [if_pos hs]

theorem step_finish_eq (dev : amd_mp2_dev) (b : Nat) (c : amd_i2c_common)
    (h0 : plat_common_at dev b = some c)
    (hs : c.state = bus_state.Completed ∨ c.state = bus_state.TimedOut) :
    step dev (xfer_step.finish b) = xfer_end dev b c := by
  simp only [step, h0]
  rw [if_pos hs]

/-- One call of the one-call model is the four steps of its bus taken in a row. -/
theorem amd_mp2_xfer_eq_run (dev : amd_mp2_dev) (b : Nat) (reqcmd : i2c_cmd)
    (slave_addr length : Nat) (buf : List Nat) (env : xfer_env) (c0 : amd_i2c_common)
    (h0 : plat_common_at dev b = some c0) (hidle : c0.state = bus_state.Idle)
    (hv : slave_addr < 256 ∧ length < 4096) (hfree : dev.c2p_lock = false) :
    (amd_mp2_xfer dev b reqcmd slave_addr length buf env).map Prod.fst =
      some (run dev [xfer_step.request b reqcmd slave_addr length buf env, xfer_step.grant b,
        xfer_step.wait b env.reply, xfer_step.finish b]) := by
  have hb := lt_two_of_plat_common_at dev b c0 h0
  simp only [run, List.foldl]
  rw [step_request_eq dev b reqcmd slave_addr length buf env c0 h0 hidle hv]
  unfold amd_mp2_xfer
  simp only [h0, hv, and_self, not_true_eq_false, if_false]
  have hl1 : (xfer_begin dev b c0 reqcmd slave_addr length buf env).1.c2p_lock = false := by
    unfold xfer_begin; rw [set_plat_common_c2p_lock]; exact hfree
  have hlock : amd_mp2_c2p_mutex_lock (xfer_begin dev b c0 reqcmd slave_addr length buf env).1 b =
      some { (xfer_begin dev b c0 reqcmd slave_addr length buf env).1 with
        c2p_lock := true, c2p_lock_busid := b } := by
    unfold amd_mp2_c2p_mutex_lock; simp [hl1]
  have hc1 : plat_common_at (xfer_begin dev b c0 reqcmd slave_addr length buf env).1 b =
      some { c0 with
        rw_cfg := (choose_location (populate_rw_cfg slave_addr length buf) env.dma_handle
          (dma_dir_of reqcmd)).1,
        reqcmd := reqcmd, state := bus_state.AwaitingMailbox } := by
    unfold xfer_begin; exact plat_common_at_set_same dev b _ hb
  have hc2 := hc1
  rw [← plat_common_at_lock _ b b] at hc2
  rw [step_grant_eq _ _ b _ hc1 rfl hlock, hlock]
  simp only [hc2]
  have hloc : (xfer_begin dev b c0 reqcmd slave_addr length buf env).2 =
      select_mem_type (choose_location (populate_rw_cfg slave_addr length buf) env.dma_handle
          (dma_dir_of reqcmd)).1.length := by
    unfold xfer_begin; exact choose_location_snd _ _ _
  rw [hloc]
  rw [step_wait_eq _ b env.reply _ (plat_common_at_write_command _ b _ _ hb) rfl]
  obtain ⟨c3, hc3, _⟩ := wait_completion_ctx _ b env.reply _
    (plat_common_at_write_command
      { (xfer_begin dev b c0 reqcmd slave_addr length buf env).1 with
        c2p_lock := true, c2p_lock_busid := b } b
      { c0 with
        rw_cfg := (choose_location (populate_rw_cfg slave_addr length buf) env.dma_handle
          (dma_dir_of reqcmd)).1,
        reqcmd := reqcmd, state := bus_state.AwaitingMailbox }
      (select_mem_type (choose_location (populate_rw_cfg slave_addr length buf) env.dma_handle
          (dma_dir_of reqcmd)).1.length) hb)
  have hs3 := (wait_completion_effect _ b env.reply _
    (plat_common_at_write_command
      { (xfer_begin dev b c0 reqcmd slave_addr length buf env).1 with
        c2p_lock := true, c2p_lock_busid := b } b
      { c0 with
        rw_cfg := (choose_location (populate_rw_cfg slave_addr length buf) env.dma_handle
          (dma_dir_of reqcmd)).1,
        reqcmd := reqcmd, state := bus_state.AwaitingMailbox }
      (select_mem_type (choose_location (populate_rw_cfg slave_addr length buf) env.dma_handle
          (dma_dir_of reqcmd)).1.length) hb)).2.2.1
  rw [state_at_of_plat_common_at _ b c3 hc3] at hs3
  simp only [Option.some.injEq] at hs3
  rw [step_finish_eq _ b c3 hc3 hs3]
  simp only [hc3, Option.map_some']

/-! ## The command word -/

/-- C1: for fields that fit their widths, the command word built by storing the
six members of `s` into a zeroed `union i2c_cmd_base` is
`op + bus_id * 2^4 + slave_addr * 2^8 + length * 2^16 + speed * 2^28 + location * 2^31`,
a 32-bit word; the scenario `i2c_read`, bus 0, slave `0x50`, length 4, `speed400k`,
`use_c2pmsg` gives `0x90045000`. -/
theorem cmd_encode_bit_exact (op bus slave len speed loc : Nat)
    (hop : op < 16) (hbus : bus < 16) (hslave : slave < 256) (hlen : len < 4096)
    (hspeed : speed < 8) (hloc : loc < 2) :
    i2c_cmd_base.encode op bus slave len speed loc =
        op + bus * 2 ^ 4 + slave * 2 ^ 8 + len * 2 ^ 16 + speed * 2 ^ 28 + loc * 2 ^ 31 ∧
      i2c_cmd_base.encode op bus slave len speed loc < 2 ^ 32 ∧
      i2c_cmd_base.encode i2c_cmd.i2c_read.toNat 0 0x50 4 speed_enum.speed400k.toNat
        mem_type.use_c2pmsg.toNat = 0x90045000 := by
  refine ⟨?_, i2c_cmd_base.cmd_encode_lt _ _ _ _ _ _, by decide⟩
  have hd := i2c_cmd_base.cmd_decode_encode_mod op bus slave len speed loc
  simp only [i2c_cmd_base.decode, i2c_cmd_base.s.mk.injEq] at hd
  obtain ⟨h1, h2, h3, h4, h5, h6⟩ := hd
  have hw := i2c_cmd_base.cmd_ul_eq_fields _ (i2c_cmd_base.cmd_encode_lt op bus slave len speed loc)
  rw [h1, h2, h3, h4, h5, h6] at hw
  rw [hw, Nat.mod_eq_of_lt hop, Nat.mod_eq_of_lt hbus, Nat.mod_eq_of_lt hslave,
    Nat.mod_eq_of_lt hlen, Nat.mod_eq_of_lt hspeed, Nat.mod_eq_of_lt hloc]

/-- Instance of `cmd_encode_bit_exact`: a write on bus 1 to slave `0x2A` of 256
bytes at `speed1000k` from DRAM. -/
theorem cmd_encode_bit_exact_witness :
    i2c_cmd_base.encode 1 1 0x2A 256 2 0 =
      1 + 1 * 2 ^ 4 + 0x2A * 2 ^ 8 + 256 * 2 ^ 16 + 2 * 2 ^ 28 + 0 * 2 ^ 31 :=
  (cmd_encode_bit_exact 1 1 0x2A 256 2 0 (by decide) (by decide) (by decide) (by decide)
    (by decide) (by decide)).1

/-- C2: round trip of the command codec: packing a tuple whose fields fit their
widths into the command word and reading the six members of `s` back gives the
tuple. -/
theorem cmd_decode_encode_roundtrip (op bus slave len speed loc : Nat)
    (hop : op < 16) (hbus : bus < 16) (hslave : slave < 256) (hlen : len < 4096)
    (hspeed : speed < 8) (hloc : loc < 2) :
    i2c_cmd_base.decode (i2c_cmd_base.encode op bus slave len speed loc) =
      { i2c_cmd := op, bus_id := bus, slave_addr := slave, length := len,
        i2c_speed := speed, mem_type := loc } :=
  i2c_cmd_base.cmd_decode_pack_of_in_range
    { i2c_cmd := op, bus_id := bus, slave_addr := slave, length := len,
      i2c_speed := speed, mem_type := loc } ⟨hop, hbus, hslave, hlen, hspeed, hloc⟩

/-- Instance of `cmd_decode_encode_roundtrip`: every field at its largest value. -/
theorem cmd_decode_encode_roundtrip_witness :
    i2c_cmd_base.decode (i2c_cmd_base.encode 15 15 255 4095 7 1) =
      { i2c_cmd := 15, bus_id := 15, slave_addr := 255, length := 4095,
        i2c_speed := 7, mem_type := 1 } :=
  cmd_decode_encode_roundtrip 15 15 255 4095 7 1 (by decide) (by decide) (by decide)
    (by decide) (by decide) (by decide)

/-- C10: storing a 16-bit `rw_cfg.slave_addr` and a 32-bit `rw_cfg.length` into
the bit-fields of a command word leaves `slave_addr mod 256` in bits 8..15 and
`length mod 4096` in bits 16..27, and the members `i2c_cmd`, `bus_id`,
`i2c_speed` and `mem_type` as they were; an address of 256 or more, or a length
of 4096 or more, is therefore read back as another value. -/
theorem cmd_store_truncates (ul slave len : Nat)
    (hslave : slave < 2 ^ 16) (hlen : len < 2 ^ 32) :
    i2c_cmd_base.slave_addr
        (i2c_cmd_base.set_length (i2c_cmd_base.set_slave_addr ul slave) len) = slave % 256 ∧
      i2c_cmd_base.length
        (i2c_cmd_base.set_length (i2c_cmd_base.set_slave_addr ul slave) len) = len % 4096 ∧
      i2c_cmd_base.i2c_cmd
        (i2c_cmd_base.set_length (i2c_cmd_base.set_slave_addr ul slave) len) =
          i2c_cmd_base.i2c_cmd ul ∧
      i2c_cmd_base.bus_id
        (i2c_cmd_base.set_length (i2c_cmd_base.set_slave_addr ul slave) len) =
          i2c_cmd_base.bus_id ul ∧
      i2c_cmd_base.i2c_speed
        (i2c_cmd_base.set_length (i2c_cmd_base.set_slave_addr ul slave) len) =
          i2c_cmd_base.i2c_speed ul ∧
      i2c_cmd_base.mem_type
        (i2c_cmd_base.set_length (i2c_cmd_base.set_slave_addr ul slave) len) =
          i2c_cmd_base.mem_type ul ∧
      i2c_cmd_base.set_length (i2c_cmd_base.set_slave_addr ul slave) len / 2 ^ 8 % 2 ^ 8 =
        slave % 256 ∧
      i2c_cmd_base.set_length (i2c_cmd_base.set_slave_addr ul slave) len / 2 ^ 16 % 2 ^ 12 =
        len % 4096 ∧
      i2c_cmd_base.set_length (i2c_cmd_base.set_slave_addr ul slave) len < 2 ^ 32 ∧
      (256 ≤ slave → i2c_cmd_base.slave_addr
        (i2c_cmd_base.set_length (i2c_cmd_base.set_slave_addr ul slave) len) ≠ slave) ∧
      (4096 ≤ len → i2c_cmd_base.length
        (i2c_cmd_base.set_length (i2c_cmd_base.set_slave_addr ul slave) len) ≠ len) := by
  have e1 : i2c_cmd_base.slave_addr
      (i2c_cmd_base.set_length (i2c_cmd_base.set_slave_addr ul slave) len) = slave % 256 := by
    simp [i2c_cmd_base.slave_addr, i2c_cmd_base.set_length, i2c_cmd_base.set_slave_addr,
      bf_get_bf_set_same, bf_get_bf_set_other]
  have e2 : i2c_cmd_base.length
      (i2c_cmd_base.set_length (i2c_cmd_base.set_slave_addr ul slave) len) = len % 4096 := by
    simp [i2c_cmd_base.length, i2c_cmd_base.set_length, bf_get_bf_set_same]
  refine ⟨e1, e2, ?_, ?_, ?_, ?_, ?_, ?_, ?_, ?_, ?_⟩
  · simp [i2c_cmd_base.i2c_cmd, i2c_cmd_base.set_length, i2c_cmd_base.set_slave_addr,
      bf_get_bf_set_other]
  · simp [i2c_cmd_base.bus_id, i2c_cmd_base.set_length, i2c_cmd_base.set_slave_addr,
      bf_get_bf_set_other]
  · simp [i2c_cmd_base.i2c_speed, i2c_cmd_base.set_length, i2c_cmd_base.set_slave_addr,
      bf_get_bf_set_other]
  · simp [i2c_cmd_base.mem_type, i2c_cmd_base.set_length, i2c_cmd_base.set_slave_addr,
      bf_get_bf_set_other]
  · rw [← bf_get_eq_div_mod]; exact e1
  · rw [← bf_get_eq_div_mod]; exact e2
  · exact bf_set_lt _ _ _ _ (by decide)
  · intro h; rw [e1]; omega
  · intro h; rw [e2]; omega

/-- Instance of `cmd_store_truncates`: the 10-bit address `0x150` and the length
`0x1004` stored into the command word of the scenario of the spec. -/
theorem cmd_store_truncates_witness :
    i2c_cmd_base.slave_addr
        (i2c_cmd_base.set_length (i2c_cmd_base.set_slave_addr 0x90045000 0x150) 0x1004) =
          0x150 % 256 ∧
      i2c_cmd_base.length
        (i2c_cmd_base.set_length (i2c_cmd_base.set_slave_addr 0x90045000 0x150) 0x1004) =
          0x1004 % 4096 :=
  have h := cmd_store_truncates 0x90045000 0x150 0x1004 (by decide) (by decide)
  ⟨h.1, h.2.1⟩

/-! ## The event word -/

/-- C3: the six members of `r` read from a 32-bit event word `w` are
`w mod 4`, `(w / 2^2) mod 32`, `(w / 2^7) mod 2`, `(w / 2^8) mod 16`,
`(w / 2^12) mod 4096` and `w / 2^24`. -/
theorem event_decode_bit_exact (w : Nat) (hw : w < 2 ^ 32) :
    i2c_event.decode w =
      { response := w % 4, status := w / 2 ^ 2 % 32, mem_type := w / 2 ^ 7 % 2,
        bus_id := w / 2 ^ 8 % 16, length := w / 2 ^ 12 % 4096, slave_addr := w / 2 ^ 24 } :=
  i2c_event.event_decode_eq_div_mod w hw

/-- Instance of `event_decode_bit_exact`: the event `0x50004105`. -/
theorem event_decode_bit_exact_witness :
    i2c_event.decode 0x50004105 =
      { response := 0x50004105 % 4, status := 0x50004105 / 2 ^ 2 % 32,
        mem_type := 0x50004105 / 2 ^ 7 % 2, bus_id := 0x50004105 / 2 ^ 8 % 16,
        length := 0x50004105 / 2 ^ 12 % 4096, slave_addr := 0x50004105 / 2 ^ 24 } :=
  event_decode_bit_exact 0x50004105 (by decide)

/-- C8, as stated, fails: the event word `0x43` decodes to the response value 3
and the status value 16, and neither is the value of an enumerator. -/
theorem event_decode_unnamed_values :
    0x43 < 2 ^ 32 ∧
      response_type.ofNat? (i2c_event.decode 0x43).response = none ∧
      status_type.ofNat? (i2c_event.decode 0x43).status = none := by
  decide

/-- C8, amended: every 32-bit event word decodes to a record with a response
value below 4 and a status value below 32; the response is one of the three
named kinds exactly when bits 0..1 are not both set, and the status is one of
the sixteen named codes exactly when bit 6 is clear. -/
theorem event_decode_named_iff (w : Nat) (hw : w < 2 ^ 32) :
    (i2c_event.decode w).response < 4 ∧ (i2c_event.decode w).status < 32 ∧
      ((response_type.ofNat? (i2c_event.decode w).response).isSome = true ↔ w % 4 ≠ 3) ∧
      ((status_type.ofNat? (i2c_event.decode w).status).isSome = true ↔
        w / 2 ^ 6 % 2 = 0) := by
  rw [i2c_event.event_decode_eq_div_mod w hw]
  simp only [response_type.isSome_ofNat?, status_type.status_isSome_ofNat?]
  norm_num
  refine ⟨?_, ?_, ?_, ?_⟩ <;> omega

/-- Instance of `event_decode_named_iff`: the event word `0x4005`, response 1 and
status 1. -/
theorem event_decode_named_iff_witness :
    (response_type.ofNat? (i2c_event.decode 0x4005).response).isSome = true ↔
      0x4005 % 4 ≠ 3 :=
  (event_decode_named_iff 0x4005 (by decide)).2.2.1

/-- C9: both layouts use all 32 bits with disjoint fields: for a 32-bit word `w`,
packing the six members read from `w` gives `w` back, under `union i2c_event`
and under `union i2c_cmd_base`; hence each decode is injective on 32-bit words,
and `w` is the pack of exactly one tuple of in-range members. Every pack is a
32-bit word. -/
theorem repack_lossless (w : Nat) (hw : w < 2 ^ 32) :
    i2c_event.pack (i2c_event.decode w) = w ∧
      i2c_cmd_base.pack (i2c_cmd_base.decode w) = w ∧
      (∀ v, v < 2 ^ 32 → i2c_event.decode v = i2c_event.decode w → v = w) ∧
      (∀ v, v < 2 ^ 32 → i2c_cmd_base.decode v = i2c_cmd_base.decode w → v = w) ∧
      (∃ f, i2c_event.in_range f ∧ i2c_event.pack f = w ∧
        ∀ g, i2c_event.in_range g → i2c_event.pack g = w → g = f) ∧
      (∃ f, i2c_cmd_base.in_range f ∧ i2c_cmd_base.pack f = w ∧
        ∀ g, i2c_cmd_base.in_range g → i2c_cmd_base.pack g = w → g = f) ∧
      (∀ f, i2c_event.pack f < 2 ^ 32) ∧ (∀ f, i2c_cmd_base.pack f < 2 ^ 32) := by
  refine ⟨i2c_event.event_pack_decode w hw, i2c_cmd_base.cmd_pack_decode w hw,
    fun v hv h => i2c_event.event_decode_injective v w hv hw h,
    fun v hv h => i2c_cmd_base.cmd_decode_injective v w hv hw h,
    ⟨i2c_event.decode w, i2c_event.event_decode_in_range w, i2c_event.event_pack_decode w hw, ?_⟩,
    ⟨i2c_cmd_base.decode w, i2c_cmd_base.cmd_decode_in_range w, i2c_cmd_base.cmd_pack_decode w hw, ?_⟩,
    i2c_event.event_pack_lt, fun f => i2c_cmd_base.cmd_encode_lt _ _ _ _ _ _⟩
  · intro g hg hp
    rw [← hp, i2c_event.event_decode_pack_of_in_range g hg]
  · intro g hg hp
    rw [← hp, i2c_cmd_base.cmd_decode_pack_of_in_range g hg]

/-- Instance of `repack_lossless`: the word `0x90045000`, read as an event and as
a command. -/
theorem repack_lossless_witness :
    i2c_event.pack (i2c_event.decode 0x90045000) = 0x90045000 ∧
      i2c_cmd_base.pack (i2c_cmd_base.decode 0x90045000) = 0x90045000 :=
  have h := repack_lossless 0x90045000 (by decide)
  ⟨h.1, h.2.1⟩

/-! ## Transfer location -/

/-- C7: the Transfer Manager selects the inline mailbox payload (`use_c2pmsg`)
exactly when the length is at most 32, the capacity of the eight 4-byte data
registers `AMD_C2P_MSG2 .. AMD_C2P_MSG9`, and DMA (`use_dram`, with `dma_addr`
and `dma_direction` set) exactly when the length exceeds 32; a 4-byte transfer is
inline and a 256-byte transfer uses DMA. -/
theorem transfer_location_selection (slave_addr length handle : Nat) (buf : List Nat)
    (dir : dma_data_direction) :
    inline_capacity = 32 ∧ inline_capacity = 4 * 8 ∧
      (select_mem_type length = mem_type.use_c2pmsg ↔ length ≤ 32) ∧
      (select_mem_type length = mem_type.use_dram ↔ 32 < length) ∧
      ((choose_location (populate_rw_cfg slave_addr length buf) handle dir).2 =
        select_mem_type length) ∧
      ((choose_location (populate_rw_cfg slave_addr length buf) handle dir).1.dma_addr =
          some handle ∧
        (choose_location (populate_rw_cfg slave_addr length buf) handle dir).1.dma_direction =
          some dir ↔ 32 < length) ∧
      ((choose_location (populate_rw_cfg slave_addr length buf) handle dir).1.dma_addr = none ∧
        (choose_location (populate_rw_cfg slave_addr length buf) handle dir).1.dma_direction =
          none ↔ length ≤ 32) ∧
      select_mem_type 4 = mem_type.use_c2pmsg ∧ select_mem_type 256 = mem_type.use_dram := by
  have hcap : inline_capacity = 32 := by decide
  refine ⟨hcap, hcap, ?_, ?_, ?_, ?_, ?_, by decide, by decide⟩
  · unfold select_mem_type; rw [hcap]; split_ifs with h <;> simp [h]
  · unfold select_mem_type; rw [hcap]; split_ifs with h <;> simp [h]; omega
  · unfold choose_location populate_rw_cfg select_mem_type; split_ifs <;> rfl
  · unfold choose_location populate_rw_cfg select_mem_type; rw [hcap]; dsimp only
    split_ifs with h
    · simp; omega
    · simp; omega
  · unfold choose_location populate_rw_cfg select_mem_type; rw [hcap]; dsimp only
    split_ifs with h
    · simp [h]
    · simp [h]

/-! ## Completion Dispatcher -/

/-- C4: the Completion Dispatcher wakes the waiter of a bus, or changes the
Per-Bus Context of a bus, only if that bus holds the mailbox and the bus id in
bits 8..11 of the event word is its id, and what it changes is the `eventval` of
that context; when no bus holds the mailbox or the ids differ, the device is
left as it was and no waiter is woken. -/
theorem completion_routing (dev : amd_mp2_dev) (event : Nat) :
    (∀ b, (completion_dispatch dev event).2 = some b →
        holder dev = some b ∧ event / 2 ^ 8 % 16 = b) ∧
      (∀ b, plat_common_at (completion_dispatch dev event).1 b ≠ plat_common_at dev b →
        holder dev = some b ∧ event / 2 ^ 8 % 16 = b ∧
          (completion_dispatch dev event).2 = some b ∧
          ∃ c, plat_common_at dev b = some c ∧
            plat_common_at (completion_dispatch dev event).1 b =
              some { c with eventval := event }) ∧
      (holder dev ≠ some (event / 2 ^ 8 % 16) →
        completion_dispatch dev event = (dev, none)) := by
  have hid : i2c_event.bus_id event = event / 2 ^ 8 % 16 := by
    rw [i2c_event.bus_id, bf_get_eq_div_mod]; norm_num
  rcases completion_dispatch_eq dev event with h1 | ⟨b2, c2, hh, hb2, hc2, h1⟩
  · rw [h1]
    refine ⟨?_, ?_, fun _ => rfl⟩
    · intro b h; exact absurd h (by simp)
    · intro b h; exact absurd rfl h
  · rw [h1]
    rw [hid] at hb2
    refine ⟨?_, ?_, ?_⟩
    · intro b h
      simp only [Option.some.injEq] at h
      subst h
      exact ⟨hh, hb2⟩
    · intro b h
      by_cases hb : b = b2
      · subst hb
        exact ⟨hh, hb2, rfl, c2, hc2,
          plat_common_at_set_same dev b _ (lt_two_of_plat_common_at dev b c2 hc2)⟩
      · exact absurd (plat_common_at_set_other dev b2 b _ hb) h
    · intro h
      rw [hb2] at h
      exact absurd hh h

/-- Instance of `completion_routing`: while bus 1 holds the mailbox, an event
carrying bus id 0 leaves the device as it was and wakes no waiter. -/
theorem completion_routing_witness :
    completion_dispatch two_bus_dev_held1 0x50004005 = (two_bus_dev_held1, none) :=
  (completion_routing two_bus_dev_held1 0x50004005).2.2 (by decide)

/-! ## Transfer Manager -/

/-- The read scenario of the spec on the model: bus 0 reads 4 bytes from slave
`0x50` at 400k; the command word `0x90045000` is written to `AMD_C2P_MSG0`, the
event `0x50004081` (success, read complete, inline, bus 0, length 4) is routed to
bus 0 and the staged word is returned. -/
theorem read_scenario :
    (amd_mp2_read two_bus_dev 0 0x50 4 ⟨0, some 0x50004081, [0xDEADBEEF]⟩).map
        (fun x => (x.1.mmio, x.1.c2p_lock, x.2)) =
      some ([(AMD_C2P_MSG0, 0x90045000)], false, Except.ok [0xDEADBEEF]) := by
  rfl

/-- A failure event on the model: the write-failed event `0x5000810E` for bus 1
ends a write on bus 1 with `ProtocolFailure`, status 3. -/
theorem write_failure_scenario :
    (amd_mp2_write two_bus_dev 1 0x50 8 [1, 2] ⟨0, some 0x5000810E, []⟩).map
        (fun x => (x.1.c2p_lock, x.2)) =
      some (false, Except.error (xfer_error.ProtocolFailure 3)) := by
  rfl

/-- C6: a call of `read`, `write` or `set_bus_enabled` on a bus whose context is
Idle with nothing mapped, and which does not hold the mailbox, returns, whatever
its outcome, with the context Idle (so neither Awaiting-Mailbox nor
Command-Sent), no DMA mapping, no armed wait and the mailbox not held by the bus;
with the mailbox free the call does return. -/
theorem transfer_releases_resources (dev : amd_mp2_dev) (b slave_addr length : Nat)
    (buf : List Nat) (enable : Bool) (env : xfer_env) (c0 : amd_i2c_common)
    (h0 : plat_common_at dev b = some c0) (hidle : c0.state = bus_state.Idle)
    (hdma : c0.rw_cfg.dma_addr = none) (hdir : c0.rw_cfg.dma_direction = none)
    (hwork : c0.work = false) (hfree : holder dev ≠ some b) :
    (∀ dev2 res, amd_mp2_read dev b slave_addr length env = some (dev2, res) →
        released dev2 b) ∧
      (∀ dev2 res, amd_mp2_write dev b slave_addr length buf env = some (dev2, res) →
        released dev2 b) ∧
      (∀ dev2 res, amd_mp2_connect dev b enable env = some (dev2, res) →
        released dev2 b) ∧
      (dev.c2p_lock = false →
        (amd_mp2_read dev b slave_addr length env).isSome = true ∧
          (amd_mp2_write dev b slave_addr length buf env).isSome = true ∧
          (amd_mp2_connect dev b enable env).isSome = true) := by
  have hr := amd_mp2_xfer_spec dev b i2c_cmd.i2c_read slave_addr length [] env c0 h0 hidle
    hdma hdir hwork hfree
  have hw := amd_mp2_xfer_spec dev b i2c_cmd.i2c_write slave_addr length buf env c0 h0 hidle
    hdma hdir hwork hfree
  have hc := amd_mp2_xfer_spec dev b
    (if enable then i2c_cmd.i2c_enable else i2c_cmd.i2c_disable) 0 0 [] env c0 h0 hidle
    hdma hdir hwork hfree
  exact ⟨hr.1, hw.1, hc.1, fun h => ⟨hr.2 h, hw.2 h, hc.2 h⟩⟩

/-- Instance of `transfer_releases_resources`: a 256-byte write on bus 1 that the
co-processor never answers returns `Timeout`, and bus 1 is left released. -/
theorem transfer_releases_resources_witness :
    amd_mp2_write two_bus_dev 1 0x50 256 [1, 2, 3] ⟨0x1000, none, []⟩ =
        some (two_bus_dev_timed_out, Except.error xfer_error.Timeout) ∧
      released two_bus_dev_timed_out 1 :=
  ⟨rfl, (transfer_releases_resources two_bus_dev 1 0x50 256 [1, 2, 3] true
    ⟨0x1000, none, []⟩ (fresh_common 1 speed_enum.speed100k) rfl rfl rfl rfl rfl
    (by decide)).2.1 _ _ rfl⟩

/-! ## Mailbox Arbiter -/

/-- C5: mailbox mutual exclusion. From a device whose buses are Idle with the
mailbox free, after any interleaving of the steps of the requests of the two
buses and of interrupts: a bus between `amd_mp2_c2p_mutex_lock` and
`amd_mp2_c2p_mutex_unlock` is the recorded holder, so at most one bus is there
and at most one command word is outstanding; while it is, no step of the other
bus or of the interrupt takes the mailbox from it or writes a register; and a
register is written only by a grant taken while no bus holds the mailbox. -/
theorem mailbox_mutual_exclusion (dev : amd_mp2_dev) (steps : List xfer_step)
    (h : all_idle dev) :
    (∀ b, in_mailbox_section (run dev steps) b = true → holder (run dev steps) = some b) ∧
      (∀ b1 b2, in_mailbox_section (run dev steps) b1 = true →
        in_mailbox_section (run dev steps) b2 = true → b1 = b2) ∧
      (∀ b1 b2, command_outstanding (run dev steps) b1 = true →
        command_outstanding (run dev steps) b2 = true → b1 = b2) ∧
      (∀ b a, in_mailbox_section (run dev steps) b = true → a.bus ≠ some b →
        holder (step (run dev steps) a) = some b ∧
          (step (run dev steps) a).mmio = (run dev steps).mmio ∧
          in_mailbox_section (step (run dev steps) a) b = true) ∧
      (∀ a, (step (run dev steps) a).mmio ≠ (run dev steps).mmio →
        holder (run dev steps) = none ∧
          (∀ b2, in_mailbox_section (run dev steps) b2 = false) ∧
          ∃ b, a = xfer_step.grant b ∧ holder (step (run dev steps) a) = some b) := by
  have hinv := mailbox_inv_run steps dev (mailbox_inv_of_all_idle dev h)
  have huniq : ∀ b1 b2, in_mailbox_section (run dev steps) b1 = true →
      in_mailbox_section (run dev steps) b2 = true → b1 = b2 := by
    intro b1 b2 h1 h2
    have e1 := hinv b1 h1
    rw [hinv b2 h2] at e1
    exact (Option.some.inj e1).symm
  refine ⟨hinv, huniq, ?_, ?_, ?_⟩
  · intro b1 b2 h1 h2
    rw [command_outstanding_iff] at h1 h2
    exact huniq b1 b2 ((in_mailbox_section_iff _ b1).2 (Or.inl h1))
      ((in_mailbox_section_iff _ b2).2 (Or.inl h2))
  · intro b a hin ha
    obtain ⟨e1, e2, e3⟩ := step_of_other (run dev steps) a b hinv hin ha
    refine ⟨e1, e2, ?_⟩
    rw [in_mailbox_section_iff] at hin ⊢
    rw [e3]
    exact hin
  · intro a hw
    exact step_writes_only_on_grant (run dev steps) a hinv hw

/-- Instance of `mailbox_mutual_exclusion`: while bus 1 holds the mailbox for its
write, the grant asked by bus 0 for its bus enable leaves bus 1 the holder and
writes no register. -/
theorem mailbox_mutual_exclusion_witness :
    holder (step (run two_bus_dev contended_steps) (xfer_step.grant 0)) = some 1 ∧
      (step (run two_bus_dev contended_steps) (xfer_step.grant 0)).mmio =
        (run two_bus_dev contended_steps).mmio :=
  have h := (mailbox_mutual_exclusion two_bus_dev contended_steps (by decide)).2.2.2.1 1
    (xfer_step.grant 0) (by decide) (by decide)
  ⟨h.1, h.2.1⟩

end AmdMp2
